import Mathlib

/-!
Verification development for the quesby-core legacy content migration
and content-import engine.

Text is modelled as `List Char`.  The JavaScript sources embedded here are:
  * `parseFrontmatter` / `writeMarkdownFile` (frontmatter codec),
  * `createSlug` (slug derivation), `generateULID` (identifier generator),
  * `isULID` / `isNewFormat` (folder-name classification),
  * `createBackup` / `migratePosts` (structural migration workflow),
  * `convertFrontmatter` / `importContent` (import workflow).
JavaScript strings become `List Char`; the dynamic header-value space is the
closed variant `Value` (string / flat string list / boolean) — the only
shapes produced by the codec's decoder and by `convertFrontmatter` for the
inputs considered here.
-/

/-- JS whitespace class used by `\s` and `String.prototype.trim`
(ASCII part; the exotic Unicode spaces never occur in the inputs studied). -/
def isWS (c : Char) : Bool :=
  c == ' ' || c == '\t' || c == '\n' || c == '\r' || c == '\x0b' || c == '\x0c'

/-- JS `String.prototype.trim`: drop leading and trailing whitespace. -/
def trimJS (s : List Char) : List Char :=
  ((s.dropWhile isWS).reverse.dropWhile isWS).reverse

/-- The double-quote character. -/
def dquote : Char := Char.ofNat 34

/-- The single-quote character. -/
def squote : Char := Char.ofNat 39

/-- Closed variant for frontmatter header values: plain string, flat list of
strings, or boolean.  The decoder only ever produces `str` and `arr`;
`bool` arises from `convertFrontmatter`'s `draft: false` default.  (The JS
writer also has branches for numbers, `null` and nested objects; no value of
this domain reaches them.) -/
inductive Value where
  | str (s : List Char)
  | arr (items : List (List Char))
  | bool (b : Bool)
deriving DecidableEq, Repr

/-- JS truthiness for a header `Value`: a string is truthy iff nonempty,
an array is always truthy, a boolean is itself. -/
def truthy : Value → Bool
  | .str s => !s.isEmpty
  | .arr _ => true
  | .bool b => b

/-- JS template-literal stringification `${value}` of a header `Value`
(an array stringifies as its items joined by commas). -/
def valueToString : Value → List Char
  | .str s => s
  | .arr items => (items.intersperse (",".data)).flatten
  | .bool b => if b then "true".data else "false".data

/-- A frontmatter header: key/value pairs in JS-object insertion order. -/
abbrev Header := List (List Char × Value)

/-- JS object property read `obj[key]`. -/
def lookupKV : Header → List Char → Option Value
  | [], _ => none
  | (k', v) :: m, k => if k' = k then some v else lookupKV m k

/-- JS object property write `obj[key] = v`: overwrite in place if the key is
present (keeping its original position), otherwise append. -/
def insertKV : Header → List Char → Value → Header
  | [], k, v => [(k, v)]
  | (k', v') :: m, k, v =>
    if k' = k then (k', v) :: m else (k', v') :: insertKV m k v

/-- JS `String.prototype.split('\n')`. -/
def splitNl : List Char → List (List Char)
  | [] => [[]]
  | c :: cs =>
    if c = '\n' then [] :: splitNl cs
    else
      match splitNl cs with
      | g :: gs => (c :: g) :: gs
      | [] => [[c]]

/-- JS `String.prototype.split(',')`. -/
def splitComma : List Char → List (List Char)
  | [] => [[]]
  | c :: cs =>
    if c = ',' then [] :: splitComma cs
    else
      match splitComma cs with
      | g :: gs => (c :: g) :: gs
      | [] => [[c]]

/-- Split a line at its first colon (`trimmed.indexOf(':')`); `none`
when the line has no colon. -/
def splitFirstColon (t : List Char) : Option (List Char × List Char) :=
  let pre := t.takeWhile (fun c => c != ':')
  if pre.length = t.length then none else some (pre, t.drop (pre.length + 1))

/-- `value.startsWith(a) && value.endsWith(b)` (false on the empty string,
true on a single character equal to both). -/
def wrappedIn (s : List Char) (a b : Char) : Bool :=
  match s with
  | [] => false
  | c :: _ => c == a && s.getLast? == some b

/-- `item.replace(/['"]/g, '')`: delete every quote character. -/
def stripQuoteChars (s : List Char) : List Char :=
  s.filter (fun c => !(c == squote) && !(c == dquote))

/-- One iteration of `parseFrontmatter`'s header-line loop: trim, skip blank
and `#` lines, split at the first colon, strip one layer of matching
surrounding quotes, then parse `[...]` as a flat comma-separated list with
per-item quote stripping; everything else stays a literal string. -/
def parseLine (line : List Char) : Option (List Char × Value) :=
  let t := trimJS line
  if t.isEmpty then none
  else if t.head? = some '#' then none
  else
    match splitFirstColon t with
    | none => none
    | some (pre, post) =>
      let key := trimJS pre
      let v0 := trimJS post
      let v1 :=
        if wrappedIn v0 dquote dquote || wrappedIn v0 squote squote then
          (v0.drop 1).dropLast
        else v0
      if wrappedIn v1 '[' ']' then
        some (key, Value.arr ((splitComma ((v1.drop 1).dropLast)).map
          (fun it => stripQuoteChars (trimJS it))))
      else some (key, Value.str v1)

/-- The header object built from the frontmatter region: each parsed line is
assigned into the object (`frontmatter[key] = value`). -/
def parseHeaderLines (ftext : List Char) : Header :=
  (splitNl ftext).foldl
    (fun m line =>
      match parseLine line with
      | some (k, v) => insertKV m k v
      | none => m)
    []

/-- Greedy `\s*\n` after the closing `---`: consume the longest whitespace
prefix that ends at a `'\n'` and return the remainder (the body); `none` if
the maximal whitespace prefix contains no `'\n'`. -/
def bsplit : List Char → Option (List Char)
  | [] => none
  | c :: cs =>
    if isWS c then
      match bsplit cs with
      | some r => some r
      | none => if c = '\n' then some cs else none
    else none

/-- The lazy group `([\s\S]*?)\n---` with the trailing `\s*\n`: scan for the
first `"\n---"` whose following `\s*\n` succeeds; on `bsplit` failure the
lazy group grows and scanning continues. -/
def splitClose : List Char → Option (List Char × List Char)
  | [] => none
  | c :: cs =>
    if c = '\n' ∧ cs.take 3 = ['-', '-', '-'] then
      match bsplit (cs.drop 3) with
      | some body => some ([], body)
      | none => (splitClose cs).map (fun p => (c :: p.1, p.2))
    else (splitClose cs).map (fun p => (c :: p.1, p.2))

/-- Candidate lengths for the opening `\s*` of `^---\s*\n`, longest first
(greedy with backtracking): positions `i` inside the maximal whitespace
prefix with `t[i] = '\n'`. -/
def nlCands (t : List Char) : List Nat :=
  ((List.range (t.takeWhile isWS).length).filter
    (fun i => t.get? i = some '\n')).reverse

/-- The regex `/^---\s*\n([\s\S]*?)\n---\s*\n([\s\S]*)$/` of
`parseFrontmatter`: `some (frontmatterText, body)` on a match. -/
def matchFM (s : List Char) : Option (List Char × List Char) :=
  if s.take 3 = ['-', '-', '-'] then
    (nlCands (s.drop 3)).findSome? (fun i => splitClose ((s.drop 3).drop (i + 1)))
  else none

/-- `parseFrontmatter(content)`: on a regex match, the parsed header region
and the (untrimmed) body; otherwise an empty header and `content.trim()`. -/
def parseFrontmatter (content : List Char) : Header × List Char :=
  match matchFM content with
  | some (ftext, body) => (parseHeaderLines ftext, body)
  | none => ([], trimJS content)

/-- The value bound to `k` by the LAST line of `ps` that binds `k`. -/
def lastVal (ps : List (List Char × Value)) (k : List Char) : Option Value :=
  match ps with
  | [] => none
  | (k', v) :: rest =>
    match lastVal rest k with
    | some w => some w
    | none => if k' = k then some v else none

/-- The key/value pairs parsed from the header region, in line order,
before object assignment collapses duplicates. -/
def headerPairs (ftext : List Char) : List (List Char × Value) :=
  (splitNl ftext).filterMap parseLine

lemma lookupKV_insertKV (m : Header) (k k2 : List Char) (v : Value) :
    lookupKV (insertKV m k v) k2 =
      if k = k2 then some v else lookupKV m k2 := by
  induction m with
  | nil => simp [insertKV, lookupKV]
  | cons p m ih =>
    obtain ⟨k1, v1⟩ := p
    by_cases h1 : k1 = k
    · subst h1
      by_cases h2 : k1 = k2
      · subst h2; simp [insertKV, lookupKV]
      · simp [insertKV, lookupKV, h2]
    · by_cases h2 : k1 = k2
      · subst h2
        have : ¬ k = k1 := fun h => h1 h.symm
        simp [insertKV, lookupKV, h1, this]
      · simp [insertKV, lookupKV, h1, h2, ih]

lemma lookupKV_fold_lastVal (lines : List (List Char)) (m : Header)
    (k : List Char) :
    lookupKV
      (lines.foldl
        (fun m line =>
          match parseLine line with
          | some (k, v) => insertKV m k v
          | none => m)
        m) k =
      match lastVal (lines.filterMap parseLine) k with
      | some w => some w
      | none => lookupKV m k := by
  induction lines generalizing m with
  | nil => simp [lastVal]
  | cons l ls ih =>
    cases hpl : parseLine l with
    | none => simp [hpl, ih]
    | some kv =>
      obtain ⟨k', v⟩ := kv
      simp only [List.foldl_cons, List.filterMap_cons, hpl]
      rw [ih]
      cases hrest : lastVal (ls.filterMap parseLine) k with
      | some w => simp [lastVal, hrest]
      | none =>
        simp only [lastVal, hrest, lookupKV_insertKV]
        by_cases hk : k' = k <;> simp [hk]

/-- C10: if the header region binds the same key on several lines, the
decoded header binds that key to the value parsed from the last such line;
earlier bindings are silently overwritten, no error is raised and no values
are merged. -/
theorem parse_duplicate_key_last_binding (ftext k : List Char) :
    lookupKV (parseHeaderLines ftext) k = lastVal (headerPairs ftext) k := by
  unfold parseHeaderLines headerPairs
  rw [lookupKV_fold_lastVal]
  cases lastVal ((splitNl ftext).filterMap parseLine) k <;> simp [lookupKV]

/-- C5 counterexample: on the header-less input `"hello "` the decoder
returns the TRIMMED input `"hello"`, not the input unchanged, as the body. -/
theorem parseFrontmatter_trims_unmatched_body :
    matchFM ("hello ".data) = none ∧
      (parseFrontmatter ("hello ".data)).2 ≠ "hello ".data := by
  decide

/-- C5 (amended): decode is total, and for every input on which the
frontmatter pattern fails to match it returns an empty header together with
the input trimmed of leading and trailing whitespace as the body. -/
theorem parseFrontmatter_no_match (s : List Char) (h : matchFM s = none) :
    parseFrontmatter s = ([], trimJS s) := by
  simp [parseFrontmatter, h]

/-- Witness for `parseFrontmatter_no_match` at the concrete input `"hi"`. -/
theorem parseFrontmatter_no_match_witness :
    parseFrontmatter ("hi".data) = ([], trimJS ("hi".data)) :=
  parseFrontmatter_no_match ("hi".data) (by decide)

/-- Characters kept by `createSlug`'s removal pass `[^a-z0-9\s-]`. -/
def keepSlugChar (c : Char) : Bool :=
  ('a' ≤ c && c ≤ 'z') || ('0' ≤ c && c ≤ '9') || isWS c || c == '-'

/-- The whitespace-run replacement pass of `createSlug` (regex `\s+` to a
single hyphen).  The boolean tracks whether the previous character was
inside a run. -/
def wsRunsAux : Bool → List Char → List Char
  | _, [] => []
  | inRun, c :: cs =>
    if isWS c then
      if inRun then wsRunsAux true cs else '-' :: wsRunsAux true cs
    else c :: wsRunsAux false cs

/-- The hyphen-run collapsing pass of `createSlug` (regex `-+` to a single
hyphen). -/
def hyRunsAux : Bool → List Char → List Char
  | _, [] => []
  | inRun, c :: cs =>
    if c = '-' then
      if inRun then hyRunsAux true cs else '-' :: hyRunsAux true cs
    else c :: hyRunsAux false cs

/-- `createSlug(title)`: lower-case, remove characters outside
`[a-z0-9\s-]`, replace whitespace runs with single hyphens, collapse hyphen
runs, then `trim()` (which trims WHITESPACE). -/
def createSlug (title : List Char) : List Char :=
  trimJS (hyRunsAux false (wsRunsAux false
    ((title.map Char.toLower).filter keepSlugChar)))

/-- Slug derivation as the spec sentence describes it: lower-case, strip
characters outside the allowed set, collapse whitespace runs to single
hyphens, and trim leading and trailing HYPHENS.  (Comparison definition for
the refinement claim; not the implementation.) -/
def createSlugClaimed (title : List Char) : List Char :=
  let s := wsRunsAux false ((title.map Char.toLower).filter keepSlugChar)
  ((s.dropWhile (fun c => c == '-')).reverse.dropWhile
    (fun c => c == '-')).reverse

/-- Slug derivation as amended: the final `trim()` of the implementation is
a whitespace trim applied to a string that no longer contains whitespace, so
nothing is trimmed and leading/trailing hyphens survive. -/
def createSlugAmended (title : List Char) : List Char :=
  hyRunsAux false (wsRunsAux false
    ((title.map Char.toLower).filter keepSlugChar))

lemma wsRunsAux_no_ws (b : Bool) (s : List Char) :
    ∀ c ∈ wsRunsAux b s, isWS c = false := by
  induction s generalizing b with
  | nil => simp [wsRunsAux]
  | cons c cs ih =>
    intro d hd
    by_cases hc : isWS c
    · by_cases hb : b
      · subst hb; simp only [wsRunsAux, hc, if_true] at hd
        exact ih true d hd
      · simp only [Bool.not_eq_true] at hb; subst hb
        simp only [wsRunsAux, hc, if_true] at hd
        rcases List.mem_cons.mp hd with h | h
        · subst h; decide
        · exact ih true d h
    · simp only [Bool.not_eq_true] at hc
      simp only [wsRunsAux, hc] at hd
      rcases List.mem_cons.mp hd with h | h
      · subst h; simpa using hc
      · exact ih false d h

lemma hyRunsAux_mem (b : Bool) (s : List Char) :
    ∀ c ∈ hyRunsAux b s, c ∈ s := by
  induction s generalizing b with
  | nil => simp [hyRunsAux]
  | cons c cs ih =>
    intro d hd
    by_cases hc : c = '-'
    · subst hc
      by_cases hb : b
      · subst hb; simp only [hyRunsAux, if_true] at hd
        exact List.mem_cons_of_mem _ (ih true d hd)
      · simp only [Bool.not_eq_true] at hb; subst hb
        simp only [hyRunsAux, if_true] at hd
        rcases List.mem_cons.mp hd with h | h
        · subst h; exact List.mem_cons_self _ _
        · exact List.mem_cons_of_mem _ (ih true d h)
    · simp only [hyRunsAux, hc, if_false] at hd
      rcases List.mem_cons.mp hd with h | h
      · subst h; exact List.mem_cons_self _ _
      · exact List.mem_cons_of_mem _ (ih false d h)

lemma dropWhile_eq_self_of_none (p : Char → Bool) (s : List Char)
    (h : ∀ c ∈ s, p c = false) : s.dropWhile p = s := by
  cases s with
  | nil => rfl
  | cons c cs =>
    rw [List.dropWhile_cons]
    simp [h c (List.mem_cons_self _ _)]

lemma trimJS_eq_self_of_no_ws (s : List Char)
    (h : ∀ c ∈ s, isWS c = false) : trimJS s = s := by
  unfold trimJS
  rw [dropWhile_eq_self_of_none _ _ h,
      dropWhile_eq_self_of_none _ _ (fun c hc => h c (List.mem_reverse.mp hc)),
      List.reverse_reverse]

/-- C6 counterexample: on the title `" hi "` the implementation returns
`"-hi-"` (leading/trailing hyphens are NOT trimmed, because the final
`trim()` trims whitespace, which was already replaced by hyphens), while the
claimed description returns `"hi"`. -/
theorem createSlug_keeps_outer_hyphens :
    createSlug (" hi ".data) = "-hi-".data ∧
      createSlugClaimed (" hi ".data) = "hi".data ∧
      createSlug (" hi ".data) ≠ createSlugClaimed (" hi ".data) := by
  decide

/-- C6 (amended): `createSlug` is pure and total and equals the pipeline
"lower-case, strip characters outside `{a-z, 0-9, whitespace, hyphen}`,
collapse whitespace runs to single hyphens, collapse hyphen runs"; the final
whitespace `trim()` is a no-op, so leading and trailing hyphens are kept. -/
theorem createSlug_eq_amended (title : List Char) :
    createSlug title = createSlugAmended title := by
  unfold createSlug createSlugAmended
  exact trimJS_eq_self_of_no_ws _
    (fun c hc => wsRunsAux_no_ws false _ c (hyRunsAux_mem false _ c hc))

/-- Base-36 digit in the uppercase alphabet `0-9A-Z` (the JS code produces
lowercase via `Number.prototype.toString(36)` and then applies
`toUpperCase`; the net result is this alphabet). -/
def b36digit (n : Nat) : Char :=
  if n < 10 then Char.ofNat (48 + n) else Char.ofNat (55 + n)

/-- Fuel-indexed most-significant-digit-first base-36 numeral writer,
mirroring `Number.prototype.toString(36)` on a natural number. -/
def toB36Aux : Nat → Nat → List Char
  | 0, _ => []
  | fuel + 1, n =>
    if n < 36 then [b36digit n]
    else toB36Aux fuel (n / 36) ++ [b36digit (n % 36)]

/-- `timestamp.toString(36).toUpperCase()`. -/
def toB36 (n : Nat) : List Char := toB36Aux (n + 1) n

/-- `generateULID()` with its two environment reads injected: `tsMs` is the
`Date.now()` observation, `rand` the `Math.random().toString(36)` string
(`"0."` followed by base-36 fraction digits).  The code takes
`rand.substring(2, 15)`, upper-cases it, pads with `'0'` to length 16 and
truncates to 16, then prepends the base-36 timestamp. -/
def generateULID (tsMs : Nat) (rand : List Char) : List Char :=
  let randomPart := ((rand.drop 2).take 13).map Char.toUpper
  toB36 tsMs ++ (randomPart ++ List.replicate (16 - randomPart.length) '0')

/-- JS string `<`: lexicographic comparison by UTF-16 code unit (equal to
code point for every character produced here). -/
def lexLt : List Char → List Char → Bool
  | [], [] => false
  | [], _ :: _ => true
  | _ :: _, [] => false
  | a :: as, b :: bs =>
    if a.toNat < b.toNat then true
    else if b.toNat < a.toNat then false
    else lexLt as bs

lemma toB36Aux_fuel_irrel (f : Nat) :
    ∀ (g n : Nat), n < f → n < g → toB36Aux f n = toB36Aux g n := by
  induction f with
  | zero => intro g n h; omega
  | succ f ih =>
    intro g n hf hg
    cases g with
    | zero => omega
    | succ g =>
      by_cases h36 : n < 36
      · simp [toB36Aux, h36]
      · have hn : 0 < n := by omega
        have hdiv : n / 36 < n := Nat.div_lt_self hn (by omega)
        simp only [toB36Aux, h36, if_false]
        rw [ih g (n / 36) (by omega) (by omega)]

lemma toB36Aux_length (k : Nat) :
    ∀ (f n : Nat), n < f → 36 ^ k ≤ n → n < 36 ^ (k + 1) →
      (toB36Aux f n).length = k + 1 := by
  induction k with
  | zero =>
    intro f n hf h1 h2
    cases f with
    | zero => omega
    | succ f =>
      have : n < 36 := by simpa using h2
      simp [toB36Aux, this]
  | succ k ih =>
    intro f n hf h1 h2
    have h36 : ¬ n < 36 := by
      have : 36 ^ 1 ≤ 36 ^ (k + 1) := Nat.pow_le_pow_right (by omega) (by omega)
      simp only [pow_one] at this
      omega
    cases f with
    | zero => omega
    | succ f =>
      have hdiv : n / 36 < n := Nat.div_lt_self (by omega) (by omega)
      have hlo : 36 ^ k ≤ n / 36 := by
        rw [Nat.le_div_iff_mul_le (by omega)]
        calc 36 ^ k * 36 = 36 ^ (k + 1) := by ring
        _ ≤ n := h1
      have hhi : n / 36 < 36 ^ (k + 1) := by
        rw [Nat.div_lt_iff_lt_mul (by omega)]
        calc n < 36 ^ (k + 2) := h2
        _ = 36 ^ (k + 1) * 36 := by ring
      simp only [toB36Aux, h36, if_false, List.length_append, List.length_cons,
        List.length_nil]
      rw [ih f (n / 36) (by omega) hlo hhi]

lemma b36digit_mono : ∀ a < 36, ∀ b < 36, a < b →
    (b36digit a).toNat < (b36digit b).toNat := by decide

lemma lexLt_append_same_left (x u v : List Char) :
    lexLt (x ++ u) (x ++ v) = lexLt u v := by
  induction x with
  | nil => rfl
  | cons a x ih => simp [lexLt, ih]

lemma lexLt_append_of_lt (x : List Char) :
    ∀ (y u v : List Char), x.length = y.length → lexLt x y = true →
      lexLt (x ++ u) (y ++ v) = true := by
  induction x with
  | nil =>
    intro y u v hlen hxy
    cases y with
    | nil => simp [lexLt] at hxy
    | cons b bs => simp at hlen
  | cons a as ih =>
    intro y u v hlen hxy
    cases y with
    | nil => simp at hlen
    | cons b bs =>
      by_cases h1 : a.toNat < b.toNat
      · simp [lexLt, h1]
      · by_cases h2 : b.toNat < a.toNat
        · simp [lexLt, h1, h2] at hxy
        · simp only [lexLt, h1, h2, if_false] at hxy ⊢
          exact ih bs u v (by simpa using hlen) hxy

lemma toB36Aux_lex (k : Nat) :
    ∀ (f a b : Nat), a < f → b < f → 36 ^ k ≤ a → a < b → b < 36 ^ (k + 1) →
      lexLt (toB36Aux f a) (toB36Aux f b) = true := by
  induction k with
  | zero =>
    intro f a b haf hbf h1 hab h2
    cases f with
    | zero => omega
    | succ f =>
      have hb : b < 36 := by simpa using h2
      have ha : a < 36 := by omega
      have := b36digit_mono a ha b hb hab
      simp [toB36Aux, ha, hb, lexLt, this]
  | succ k ih =>
    intro f a b haf hbf h1 hab h2
    have hpow : 36 ^ 1 ≤ 36 ^ (k + 1) := Nat.pow_le_pow_right (by omega) (by omega)
    simp only [pow_one] at hpow
    have ha36 : ¬ a < 36 := by omega
    have hb36 : ¬ b < 36 := by omega
    cases f with
    | zero => omega
    | succ f =>
      have hadiv : a / 36 < a := Nat.div_lt_self (by omega) (by omega)
      have hbdiv : b / 36 < b := Nat.div_lt_self (by omega) (by omega)
      have halo : 36 ^ k ≤ a / 36 := by
        rw [Nat.le_div_iff_mul_le (by omega)]
        calc 36 ^ k * 36 = 36 ^ (k + 1) := by ring
        _ ≤ a := h1
      have hahi : a / 36 < 36 ^ (k + 1) := by
        rw [Nat.div_lt_iff_lt_mul (by omega)]
        calc a < b := hab
        _ < 36 ^ (k + 2) := h2
        _ = 36 ^ (k + 1) * 36 := by ring
      have hbhi : b / 36 < 36 ^ (k + 1) := by
        rw [Nat.div_lt_iff_lt_mul (by omega)]
        calc b < 36 ^ (k + 2) := h2
        _ = 36 ^ (k + 1) * 36 := by ring
      simp only [toB36Aux, ha36, hb36, if_false]
      rcases Nat.lt_trichotomy (a / 36) (b / 36) with hq | hq | hq
      · have hblo : 36 ^ k ≤ b / 36 := le_trans halo (le_of_lt hq)
        have hlex := ih f (a / 36) (b / 36) (by omega) (by omega) halo hq hbhi
        have hla := toB36Aux_length k f (a / 36) (by omega) halo hahi
        have hlb := toB36Aux_length k f (b / 36) (by omega) hblo hbhi
        exact lexLt_append_of_lt _ _ _ _ (by rw [hla, hlb]) hlex
      · rw [hq, lexLt_append_same_left]
        have hmod : a % 36 < b % 36 := by
          have ha' := Nat.div_add_mod a 36
          have hb' := Nat.div_add_mod b 36
          omega
        have := b36digit_mono (a % 36) (Nat.mod_lt _ (by omega)) (b % 36)
          (Nat.mod_lt _ (by omega)) hmod
        simp [lexLt, this]
      · have : a / 36 ≤ b / 36 := Nat.div_le_div_right (le_of_lt hab)
        omega

/-- C7 counterexample: `generateULID` does NOT return tokens of one fixed
length.  At the millisecond timestamp 1700000000000 (November 2023) the
token has 24 characters; at 2821109907456 (May 2059, the first timestamp
with a 9-digit base-36 representation) it has 25. -/
theorem generateULID_not_fixed_length :
    (generateULID 1700000000000 ("0.abc".data)).length = 24 ∧
      (generateULID 2821109907456 ("0.abc".data)).length = 25 := by
  decide

/-- C7 (amended): for timestamps in the fixed-width era
`36^7 ≤ t < 36^8` (September 1995 through May 2059) every token has exactly
24 characters, and a token generated at a strictly later millisecond sorts
lexically after one generated earlier, whatever the random observations
are.  (Tokens of the same millisecond with equal random observations are
equal, so intra-run uniqueness is not guaranteed by the code.) -/
theorem generateULID_era_sorted (t1 t2 : Nat) (r1 r2 : List Char)
    (h1 : 36 ^ 7 ≤ t1) (h12 : t1 < t2) (h2 : t2 < 36 ^ 8) :
    (generateULID t1 r1).length = 24 ∧ (generateULID t2 r2).length = 24 ∧
      lexLt (generateULID t1 r1) (generateULID t2 r2) = true := by
  have hl1 : (toB36 t1).length = 8 :=
    toB36Aux_length 7 (t1 + 1) t1 (by omega) h1 (by omega)
  have hl2 : (toB36 t2).length = 8 :=
    toB36Aux_length 7 (t2 + 1) t2 (by omega) (by omega) h2
  have hpadlen : ∀ (r : List Char),
      (((r.drop 2).take 13).map Char.toUpper ++
        List.replicate (16 - (((r.drop 2).take 13).map Char.toUpper).length)
          '0').length = 16 := by
    intro r
    have h13 : (((r.drop 2).take 13).map Char.toUpper).length ≤ 13 := by
      simp [List.length_take]
    simp only [List.length_append, List.length_replicate]
    omega
  refine ⟨?_, ?_, ?_⟩
  · simp only [generateULID, List.length_append, hl1, hpadlen r1]
  · simp only [generateULID, List.length_append, hl2, hpadlen r2]
  · have heq1 : toB36 t1 = toB36Aux (t2 + 1) t1 :=
      toB36Aux_fuel_irrel (t1 + 1) (t2 + 1) t1 (by omega) (by omega)
    have hlex : lexLt (toB36 t1) (toB36 t2) = true := by
      rw [heq1]
      exact toB36Aux_lex 7 (t2 + 1) t1 t2 (by omega) (by omega) h1 h12 h2
    exact lexLt_append_of_lt _ _ _ _ (by rw [hl1, hl2]) hlex

/-- Witness for `generateULID_era_sorted` at the concrete timestamps
`36^7` and `36^7 + 1`. -/
theorem generateULID_era_sorted_witness :
    (generateULID 78364164096 ("0.z".data)).length = 24 ∧
      (generateULID 78364164097 ("0.y".data)).length = 24 ∧
      lexLt (generateULID 78364164096 ("0.z".data))
        (generateULID 78364164097 ("0.y".data)) = true :=
  generateULID_era_sorted 78364164096 78364164097 ("0.z".data) ("0.y".data)
    (by norm_num) (by norm_num) (by norm_num)

/-- The character class `[0-9A-Za-z]` of `isULID`. -/
def isAlnum (c : Char) : Bool :=
  ('0' ≤ c && c ≤ '9') || ('A' ≤ c && c ≤ 'Z') || ('a' ≤ c && c ≤ 'z')

/-- The character class `[0-9A-HJKMNP-TV-Z]` of `isNewFormat`
(Crockford base32: uppercase without I, L, O, U). -/
def isCrockford (c : Char) : Bool :=
  ('0' ≤ c && c ≤ '9') || ('A' ≤ c && c ≤ 'H') || c == 'J' || c == 'K' ||
    c == 'M' || c == 'N' || ('P' ≤ c && c ≤ 'T') || ('V' ≤ c && c ≤ 'Z')

/-- `isULID(folderName)`: exactly 26 characters, all alphanumeric. -/
def isULID (folderName : List Char) : Bool :=
  folderName.length == 26 && folderName.all isAlnum

/-- `isNewFormat(folderName)`: the regex `^[0-9A-HJKMNP-TV-Z]{26}--.+$`
(26 Crockford characters, a literal `--`, then at least one character; `.`
excludes the JS line terminators). -/
def isNewFormat (folderName : List Char) : Bool :=
  decide (29 ≤ folderName.length) && (folderName.take 26).all isCrockford &&
    (folderName.drop 26).take 2 == ['-', '-'] &&
    (folderName.drop 28).all
      (fun c => c != '\n' && c != '\r' && c.toNat != 0x2028 && c.toNat != 0x2029)

/-- One header line as emitted by the migration script's
`writeMarkdownFile`: arrays one unquoted item per line, everything else via
the template literal `${key}: ${value}`. -/
def writeLineSimple (k : List Char) (v : Value) : List Char :=
  match v with
  | .arr items =>
    k ++ ":".data ++ ['\n'] ++
      (items.map (fun it => "  - ".data ++ it ++ ['\n'])).flatten
  | v => k ++ ": ".data ++ valueToString v ++ ['\n']

/-- The migration script's `writeMarkdownFile(frontmatter, content)`
(serialization only; the `fs.writeFileSync` target is the caller's tree). -/
def writeMarkdownFileSimple (fm : Header) (content : List Char) : List Char :=
  "---\n".data ++ (fm.map (fun p => writeLineSimple p.1 p.2)).flatten ++
    "---\n\n".data ++ content

/-- `yamlQuote`'s escaping: each double quote becomes backslash-quote. -/
def escapeDQ (s : List Char) : List Char :=
  s.foldr (fun c acc => if c = dquote then '\\' :: dquote :: acc else c :: acc) []

/-- The importer's `yamlQuote(value)`: wrap in double quotes, escaping
embedded double quotes. -/
def yamlQuote (s : List Char) : List Char :=
  dquote :: (escapeDQ s ++ [dquote])

/-- One header line as emitted by the importer's `writeMarkdownFile`:
array items and strings are `yamlQuote`d, booleans (and numbers) are
emitted bare.  (The `null` and nested-object branches of the source cannot
receive a `Value`.) -/
def writeLineQuoted (k : List Char) (v : Value) : List Char :=
  match v with
  | .arr items =>
    k ++ ":".data ++ ['\n'] ++
      (items.map (fun it => "  - ".data ++ yamlQuote it ++ ['\n'])).flatten
  | .bool b => k ++ ": ".data ++ (if b then "true".data else "false".data) ++ ['\n']
  | .str s => k ++ ": ".data ++ yamlQuote s ++ ['\n']

/-- The importer's `writeMarkdownFile(frontmatter, content)`. -/
def writeMarkdownFile (fm : Header) (content : List Char) : List Char :=
  "---\n".data ++ (fm.map (fun p => writeLineQuoted p.1 p.2)).flatten ++
    "---\n\n".data ++ content

/-- Per-folder outcome recorded by the migration run (the console line the
script prints for that folder). -/
inductive MClass where
  | alreadyNew
  | notUlid
  | noIndex
  | noSlug
  | conflictSlug
  | conflictTarget
  | migratedDoc (slug : Value)
deriving DecidableEq, Repr

/-- The `migrationResults` counter record. -/
structure MRes where
  processed : Nat
  migrated : Nat
  skipped : Nat
  errors : Nat
  conflicts : Nat
deriving DecidableEq, Repr

/-- The content tree: one entry per post folder, with the folder's
`index.md` content when that file exists. -/
abbrev FTree := List (List Char × Option (List Char))

/-- `fs.readFileSync`/`fs.existsSync` on a folder's `index.md`. -/
def lookupDir : FTree → List Char → Option (Option (List Char))
  | [], _ => none
  | (n, c) :: t, k => if n = k then some c else lookupDir t k

/-- `fs.readdirSync`: the folder names, in listing order. -/
def dirNames (fs : FTree) : List (List Char) := fs.map (·.1)

/-- Run state of `migratePosts`: the live tree, the `slugMap`, the
per-folder outcome log, and the counters. -/
structure MState where
  fs : FTree
  slugMap : List (List Char)
  log : List (List Char × MClass)
  res : MRes
deriving DecidableEq, Repr

/-- The derived pre-migration alias `` `/blog/${slug}/` ``. -/
def mkAlias (slugV : Value) : List Char :=
  "/blog/".data ++ valueToString slugV ++ "/".data

/-- The `updatedFrontmatter` object of `migratePosts`: spread the parsed
frontmatter and replace `aliases` by the existing array (or `[]` when the
recorded value is not an array) with falsy/blank entries filtered out and
the new alias appended. -/
def updatedFrontmatter (fm : Header) (slugV : Value) : Header :=
  let existing :=
    match lookupKV fm ("aliases".data) with
    | some (.arr l) => l
    | _ => []
  insertKV fm ("aliases".data)
    (.arr (existing.filter (fun a => !a.isEmpty && !(trimJS a).isEmpty) ++
      [mkAlias slugV]))

/-- `slugMap.has(slug)`.  JS `Map` keys compare by reference for objects:
a freshly parsed array never equals a stored array key, so only string
slugs can be found (the decoder never produces booleans). -/
def slugReserved (m : List (List Char)) : Value → Bool
  | .str s => decide (s ∈ m)
  | _ => false

/-- `slugMap.set(slug, newFolderName)` restricted to what later `has`
calls can observe: string keys are recorded; an object key is stored under
its reference and is unreachable within the run. -/
def slugRecord (m : List (List Char)) : Value → List (List Char)
  | .str s => s :: m
  | _ => m

/-- One iteration of `migratePosts`' folder loop, in source order:
count `processed`; skip new-format names; skip non-ULID names; error when
`index.md` is missing; parse; skip when `frontmatter.slug` is falsy;
conflict when the slug is in `slugMap` or the target folder exists;
otherwise (in a live run) write the updated document to
`` `${ulid}--${slug}` `` and remove the old folder, then record the slug and
count `migrated` (the last two also under dry-run, as in the source). -/
def migrateStep (dry : Bool) (st : MState) (folder : List Char) : MState :=
  let st := { st with res := { st.res with processed := st.res.processed + 1 } }
  if isNewFormat folder then
    { st with res := { st.res with skipped := st.res.skipped + 1 },
              log := st.log ++ [(folder, MClass.alreadyNew)] }
  else if !isULID folder then
    { st with res := { st.res with skipped := st.res.skipped + 1 },
              log := st.log ++ [(folder, MClass.notUlid)] }
  else
    match lookupDir st.fs folder with
    | none =>
      { st with res := { st.res with errors := st.res.errors + 1 },
                log := st.log ++ [(folder, MClass.noIndex)] }
    | some none =>
      { st with res := { st.res with errors := st.res.errors + 1 },
                log := st.log ++ [(folder, MClass.noIndex)] }
    | some (some content) =>
      let fmb := parseFrontmatter content
      match lookupKV fmb.1 ("slug".data) with
      | none =>
        { st with res := { st.res with skipped := st.res.skipped + 1 },
                  log := st.log ++ [(folder, MClass.noSlug)] }
      | some slugV =>
        if !truthy slugV then
          { st with res := { st.res with skipped := st.res.skipped + 1 },
                    log := st.log ++ [(folder, MClass.noSlug)] }
        else
          let newName := folder ++ "--".data ++ valueToString slugV
          if slugReserved st.slugMap slugV then
            { st with res := { st.res with conflicts := st.res.conflicts + 1 },
                      log := st.log ++ [(folder, MClass.conflictSlug)] }
          else if decide (newName ∈ dirNames st.fs) then
            { st with res := { st.res with conflicts := st.res.conflicts + 1 },
                      log := st.log ++ [(folder, MClass.conflictTarget)] }
          else
            let newContent :=
              writeMarkdownFileSimple (updatedFrontmatter fmb.1 slugV) fmb.2
            { st with
              fs := if dry then st.fs
                    else (st.fs.filter (fun e => e.1 != folder)) ++
                      [(newName, some newContent)],
              slugMap := slugRecord st.slugMap slugV,
              res := { st.res with migrated := st.res.migrated + 1 },
              log := st.log ++ [(folder, MClass.migratedDoc slugV)] }

/-- `migratePosts(dryRun)` on a content tree: the folder list is read once
at the start (`fs.readdirSync`), then each folder is processed in order. -/
def migratePosts (dry : Bool) (fs0 : FTree) : MState :=
  (dirNames fs0).foldl (migrateStep dry) ⟨fs0, [], [], ⟨0, 0, 0, 0, 0⟩⟩

/-- Filesystem state visible to a whole run: the content tree and the
sibling backup directory (which lives outside the content tree). -/
structure FullState where
  tree : FTree
  backup : Option FTree
deriving DecidableEq, Repr

/-- `createBackup()` of the migration script: an existing backup directory
is removed UNCONDITIONALLY (the `fs.rmSync` is outside the dry-run guard);
the copy itself happens only in a live run. -/
def createBackup (dry : Bool) (s : FullState) : FullState :=
  let s1 := if s.backup.isSome then { s with backup := none } else s
  if !dry then { s1 with backup := some s1.tree } else s1

/-- A whole `migratePosts` invocation over the full filesystem state:
backup first, then the per-folder loop on the content tree. -/
def migratePostsRun (dry : Bool) (s : FullState) : FullState :=
  let s1 := createBackup dry s
  { s1 with tree := (migratePosts dry s1.tree).fs }

/-- C2 (code bug): a dry-run invocation of the migration workflow on a
filesystem that still holds a backup from an earlier run DELETES that
backup — `createBackup` runs `fs.rmSync(BACKUP_DIR, ...)` before checking
`DRY_RUN` — so the filesystem after the invocation differs from the one
before, although the content tree itself is untouched. -/
theorem dry_run_deletes_preexisting_backup :
    migratePostsRun true ⟨[("A".data, some ("x".data))], some []⟩ ≠
        ⟨[("A".data, some ("x".data))], some []⟩ ∧
      (migratePostsRun true ⟨[("A".data, some ("x".data))], some []⟩).backup =
        none ∧
      (migratePostsRun true ⟨[("A".data, some ("x".data))], some []⟩).tree =
        [("A".data, some ("x".data))] := by
  decide

/-- C9: for a folder that the structural migration processes successfully
(eligible ULID folder, truthy slug, no conflict), the written document's
header binds `aliases` to the previously recorded alias list with falsy and
blank entries pruned, every non-blank entry preserved in order, and the
derived pre-migration alias `` `/blog/${slug}/` `` appended at the end. -/
theorem migration_alias_update
    (st : MState) (folder content : List Char) (fm : Header)
    (body : List Char) (slugV : Value) (L : List (List Char))
    (hnf : isNewFormat folder = false)
    (hul : isULID folder = true)
    (hidx : lookupDir st.fs folder = some (some content))
    (hparse : parseFrontmatter content = (fm, body))
    (hslug : lookupKV fm ("slug".data) = some slugV)
    (htr : truthy slugV = true)
    (hres : slugReserved st.slugMap slugV = false)
    (htgt : folder ++ "--".data ++ valueToString slugV ∉ dirNames st.fs)
    (hal : lookupKV fm ("aliases".data) = some (Value.arr L)) :
    (folder ++ "--".data ++ valueToString slugV,
        some (writeMarkdownFileSimple (updatedFrontmatter fm slugV) body)) ∈
      (migrateStep false st folder).fs ∧
    lookupKV (updatedFrontmatter fm slugV) ("aliases".data) =
      some (Value.arr
        (L.filter (fun a => !a.isEmpty && !(trimJS a).isEmpty) ++
          [mkAlias slugV])) := by
  constructor
  · simp only [migrateStep, hnf, hul, hidx, hparse, hslug, htr, hres,
      Bool.false_eq_true, if_false, Bool.not_true, Bool.false_eq_true,
      decide_eq_false htgt]
    simp
  · unfold updatedFrontmatter
    rw [hal, lookupKV_insertKV]
    simp

/-- Witness for `migration_alias_update`: a concrete eligible folder whose
document records `aliases: [/old/]` and `slug: post`. -/
theorem migration_alias_update_witness :
    let folder := "01ARZ3NDEKTSV4RRFFQ69G5FAV".data
    let content := "---\nslug: post\naliases: [/old/]\n---\n\nx".data
    let st : MState := ⟨[(folder, some content)], [], [], ⟨0, 0, 0, 0, 0⟩⟩
    let fm : Header :=
      [("slug".data, Value.str ("post".data)),
       ("aliases".data, Value.arr [("/old/".data)])]
    (folder ++ "--".data ++ "post".data,
        some (writeMarkdownFileSimple
          (updatedFrontmatter fm (Value.str ("post".data))) ("x".data))) ∈
      (migrateStep false st folder).fs ∧
    lookupKV (updatedFrontmatter fm (Value.str ("post".data)))
        ("aliases".data) =
      some (Value.arr [("/old/".data), mkAlias (Value.str ("post".data))]) := by
  intro folder content st fm
  have h := migration_alias_update st folder content fm ("x".data)
    (Value.str ("post".data)) [("/old/".data)]
    (by decide) (by decide) (by decide) (by decide) (by decide) (by decide)
    (by decide) (by decide) (by decide)
  exact ⟨h.1, by rw [h.2]; decide⟩

/-- The string slugs of the documents migrated so far, in processing
order. -/
def migratedStrSlugs (log : List (List Char × MClass)) : List (List Char) :=
  log.filterMap
    (fun p =>
      match p.2 with
      | MClass.migratedDoc (.str s) => some s
      | _ => none)

lemma migratedStrSlugs_append (l1 l2 : List (List Char × MClass)) :
    migratedStrSlugs (l1 ++ l2) =
      migratedStrSlugs l1 ++ migratedStrSlugs l2 := by
  simp [migratedStrSlugs]

/-- Invariant tying the migrated slugs to the reservation map. -/
def SlugInv (st : MState) : Prop :=
  (migratedStrSlugs st.log).Nodup ∧
    ∀ s ∈ migratedStrSlugs st.log, s ∈ st.slugMap

/-- Every branch of `migrateStep` either appends a non-migrated log entry
and leaves `slugMap` alone, or appends a migrated entry for a slug that was
not reserved and records it. -/
lemma migrateStep_log_shape (dry : Bool) (st : MState) (folder : List Char) :
    (∃ c, (∀ v, c ≠ MClass.migratedDoc v) ∧
      (migrateStep dry st folder).log = st.log ++ [(folder, c)] ∧
      (migrateStep dry st folder).slugMap = st.slugMap) ∨
    (∃ slugV, slugReserved st.slugMap slugV = false ∧
      (migrateStep dry st folder).log =
        st.log ++ [(folder, MClass.migratedDoc slugV)] ∧
      (migrateStep dry st folder).slugMap = slugRecord st.slugMap slugV) := by
  by_cases h1 : isNewFormat folder = true
  · exact Or.inl ⟨MClass.alreadyNew, (fun v hv => by cases hv),
      (by simp [migrateStep, h1]), (by simp [migrateStep, h1])⟩
  · rw [Bool.not_eq_true] at h1
    by_cases h2 : isULID folder = true
    · cases hld : lookupDir st.fs folder with
      | none =>
        exact Or.inl ⟨MClass.noIndex, (fun v hv => by cases hv),
          (by simp [migrateStep, h1, h2, hld]),
          (by simp [migrateStep, h1, h2, hld])⟩
      | some oc =>
        cases oc with
        | none =>
          exact Or.inl ⟨MClass.noIndex, (fun v hv => by cases hv),
            (by simp [migrateStep, h1, h2, hld]),
            (by simp [migrateStep, h1, h2, hld])⟩
        | some content =>
          cases hsl : lookupKV (parseFrontmatter content).1 ("slug".data) with
          | none =>
            exact Or.inl ⟨MClass.noSlug, (fun v hv => by cases hv),
              (by simp [migrateStep, h1, h2, hld, hsl]),
              (by simp [migrateStep, h1, h2, hld, hsl])⟩
          | some slugV =>
            by_cases htr : truthy slugV = true
            · by_cases hres : slugReserved st.slugMap slugV = true
              · exact Or.inl ⟨MClass.conflictSlug, (fun v hv => by cases hv),
                  (by simp [migrateStep, h1, h2, hld, hsl, htr, hres]),
                  (by simp [migrateStep, h1, h2, hld, hsl, htr, hres])⟩
              · rw [Bool.not_eq_true] at hres
                by_cases htg :
                    folder ++ '-' :: '-' :: valueToString slugV ∈ dirNames st.fs
                · exact Or.inl ⟨MClass.conflictTarget,
                    (fun v hv => by cases hv),
                    (by simp [migrateStep, h1, h2, hld, hsl, htr, hres, htg]),
                    (by simp [migrateStep, h1, h2, hld, hsl, htr, hres, htg])⟩
                · exact Or.inr ⟨slugV, hres,
                    (by simp [migrateStep, h1, h2, hld, hsl, htr, hres, htg]),
                    (by simp [migrateStep, h1, h2, hld, hsl, htr, hres, htg])⟩
            · rw [Bool.not_eq_true] at htr
              exact Or.inl ⟨MClass.noSlug, (fun v hv => by cases hv),
                (by simp [migrateStep, h1, h2, hld, hsl, htr]),
                (by simp [migrateStep, h1, h2, hld, hsl, htr])⟩
    · rw [Bool.not_eq_true] at h2
      exact Or.inl ⟨MClass.notUlid, (fun v hv => by cases hv),
        (by simp [migrateStep, h1, h2]), (by simp [migrateStep, h1, h2])⟩

lemma migrateStep_slugInv (dry : Bool) (st : MState) (folder : List Char)
    (h : SlugInv st) : SlugInv (migrateStep dry st folder) := by
  obtain ⟨hnd, hsub⟩ := h
  rcases migrateStep_log_shape dry st folder with
    ⟨c, hc, hlog, hmap⟩ | ⟨slugV, hres, hlog, hmap⟩
  · have hone : migratedStrSlugs [(folder, c)] = [] := by
      cases c <;> first
        | rfl
        | (rename_i v; cases v <;> first | rfl | exact absurd rfl (hc _))
    constructor
    · rw [hlog, migratedStrSlugs_append, hone, List.append_nil]; exact hnd
    · intro s hs
      rw [hlog, migratedStrSlugs_append, hone, List.append_nil] at hs
      rw [hmap]; exact hsub s hs
  · cases slugV with
    | str s0 =>
      have hnotin : s0 ∉ st.slugMap := by
        simpa [slugReserved] using hres
      constructor
      · rw [hlog, migratedStrSlugs_append]
        have : migratedStrSlugs [(folder, MClass.migratedDoc (.str s0))] =
            [s0] := rfl
        rw [this]
        simp only [List.nodup_append, List.nodup_cons, List.not_mem_nil,
          List.nodup_nil, and_true, not_false_iff, true_and]
        refine ⟨hnd, ?_⟩
        intro a ha hb
        simp only [List.mem_singleton] at hb
        subst hb
        exact hnotin (hsub a ha)
      · intro s hs
        rw [hlog, migratedStrSlugs_append] at hs
        rw [hmap]
        rcases List.mem_append.mp hs with h | h
        · exact List.mem_cons_of_mem _ (hsub s h)
        · have : s = s0 := by simpa [migratedStrSlugs] using h
          subst this
          exact List.mem_cons_self _ _
    | arr l =>
      have hone : migratedStrSlugs [(folder, MClass.migratedDoc (.arr l))] =
          [] := rfl
      constructor
      · rw [hlog, migratedStrSlugs_append, hone, List.append_nil]; exact hnd
      · intro s hs
        rw [hlog, migratedStrSlugs_append, hone, List.append_nil] at hs
        rw [hmap]; exact hsub s hs
    | bool b =>
      have hone : migratedStrSlugs [(folder, MClass.migratedDoc (.bool b))] =
          [] := rfl
      constructor
      · rw [hlog, migratedStrSlugs_append, hone, List.append_nil]; exact hnd
      · intro s hs
        rw [hlog, migratedStrSlugs_append, hone, List.append_nil] at hs
        rw [hmap]; exact hsub s hs

lemma foldl_migrateStep_slugInv (dry : Bool) (l : List (List Char)) :
    ∀ (st : MState), SlugInv st → SlugInv (l.foldl (migrateStep dry) st) := by
  induction l with
  | nil => intro st h; exact h
  | cons f fs ih =>
    intro st h
    exact ih _ (migrateStep_slugInv dry st f h)

/-- A step that raises the conflict counter changes nothing else: the tree
is untouched, nothing is migrated and no slug is recorded. -/
lemma migrateStep_conflict_frame (dry : Bool) (st : MState)
    (folder : List Char)
    (h : (migrateStep dry st folder).res.conflicts ≠ st.res.conflicts) :
    (migrateStep dry st folder).fs = st.fs ∧
      (migrateStep dry st folder).res.migrated = st.res.migrated ∧
      (migrateStep dry st folder).slugMap = st.slugMap := by
  by_cases h1 : isNewFormat folder = true
  · simp [migrateStep, h1]
  · rw [Bool.not_eq_true] at h1
    by_cases h2 : isULID folder = true
    · cases hld : lookupDir st.fs folder with
      | none => simp [migrateStep, h1, h2, hld]
      | some oc =>
        cases oc with
        | none => simp [migrateStep, h1, h2, hld]
        | some content =>
          cases hsl : lookupKV (parseFrontmatter content).1 ("slug".data) with
          | none => simp [migrateStep, h1, h2, hld, hsl]
          | some slugV =>
            by_cases htr : truthy slugV = true
            · by_cases hres : slugReserved st.slugMap slugV = true
              · simp [migrateStep, h1, h2, hld, hsl, htr, hres]
              · rw [Bool.not_eq_true] at hres
                by_cases htg :
                    folder ++ '-' :: '-' :: valueToString slugV ∈ dirNames st.fs
                · simp [migrateStep, h1, h2, hld, hsl, htr, hres, htg]
                · exact absurd
                    (by simp [migrateStep, h1, h2, hld, hsl, htr, hres, htg]) h
            · rw [Bool.not_eq_true] at htr
              simp [migrateStep, h1, h2, hld, hsl, htr]
    · rw [Bool.not_eq_true] at h2
      simp [migrateStep, h1, h2]

/-- C4 (amended): in the structural-migration workflow no two successfully
migrated documents carry the same string slug — `migratePosts` checks
`slugMap` before migrating, counts a hit as a conflict and leaves the tree
untouched (the document is skipped, never renamed).  (The import workflow
performs no such reservation; see the counterexample.) -/
theorem migration_slug_uniqueness (fs0 : FTree) (st : MState)
    (folder : List Char)
    (hconf : (migrateStep false st folder).res.conflicts ≠ st.res.conflicts) :
    (migratedStrSlugs (migratePosts false fs0).log).Nodup ∧
      (migrateStep false st folder).fs = st.fs ∧
      (migrateStep false st folder).res.migrated = st.res.migrated := by
  refine ⟨?_, (migrateStep_conflict_frame false st folder hconf).1,
    (migrateStep_conflict_frame false st folder hconf).2.1⟩
  have h := foldl_migrateStep_slugInv false (dirNames fs0)
    ⟨fs0, [], [], ⟨0, 0, 0, 0, 0⟩⟩ (by constructor <;> simp [migratedStrSlugs])
  exact h.1

/-- Witness for `migration_slug_uniqueness`: a conflicting folder (its slug
`post` is already in `slugMap`) is counted and leaves the tree unchanged. -/
theorem migration_slug_uniqueness_witness :
    let f := "01ARZ3NDEKTSV4RRFFQ69G5FAV".data
    let doc := "---\nslug: post\n---\n\nx".data
    let st : MState :=
      ⟨[(f, some doc)], ["post".data], [], ⟨0, 0, 0, 0, 0⟩⟩
    (migratedStrSlugs (migratePosts false [(f, some doc)]).log).Nodup ∧
      (migrateStep false st f).fs = st.fs ∧
      (migrateStep false st f).res.migrated = st.res.migrated := by
  intro f doc st
  exact migration_slug_uniqueness [(f, some doc)] st f (by decide)

/-- `path.basename(p)`: the part after the last slash. -/
def basenameOf (p : List Char) : List Char :=
  (p.reverse.takeWhile (fun c => c != '/')).reverse

/-- `path.basename(p, '.md')`: basename with a trailing `.md` removed. -/
def basenameMd (p : List Char) : List Char :=
  let b := basenameOf p
  if b.reverse.take 3 = ['d', 'm', '.'] then b.take (b.length - 3) else b

/-- Default `fieldMappings.title` candidate keys, in priority order. -/
def titleFields : List (List Char) :=
  ["page-title".data, "seoTitle".data, "title".data]

/-- Default `fieldMappings.description` candidate keys, in priority order. -/
def descFields : List (List Char) :=
  ["descrizione".data, "description".data, "excerpt".data, "summary".data]

/-- First-match-wins lookup over a candidate key list: the first key whose
value is present and truthy. -/
def firstTruthy (keys : List (List Char)) (fm : Header) : Option Value :=
  keys.findSome?
    (fun k =>
      match lookupKV fm k with
      | some v => if truthy v then some v else none
      | none => none)

/-- `oldFm[key] || dflt`. -/
def lookupOr (fm : Header) (k : List Char) (dflt : Value) : Value :=
  match lookupKV fm k with
  | some v => if truthy v then v else dflt
  | none => dflt

/-- `convertFrontmatter(oldFrontmatter, filename)` under the default
configuration (`DEFAULT_AUTHOR = "Author"`, `addCategoryToTags`,
`createAliases` with pattern `/blog/{slug}/`), with the identifier and the
clock reading injected.  Returns the new header and the slug.  `none`
models a thrown `TypeError`, caught by `importContent`'s per-document
`try/catch`: a non-string resolved title (`title.toLowerCase`), a
non-string image path (`path.basename`), or `tags.push` on a non-array;
pushing a non-string category is also mapped to `none` (the JS result, a
nested non-string tag item, lies outside the `Value` domain and cannot
arise from the decoder used here). -/
def convertFrontmatter (oldFm : Header) (filename : List Char)
    (id : List Char) (nowIso : List Char) : Option (Header × List Char) :=
  let title0 := (firstTruthy titleFields oldFm).getD (Value.str ("Untitled".data))
  let title1 :=
    if title0 = Value.str ("Untitled".data) then Value.str (basenameMd filename)
    else title0
  match title1 with
  | .arr _ => none
  | .bool _ => none
  | .str titleStr =>
    let slug := createSlug titleStr
    let descV := (firstTruthy descFields oldFm).getD (Value.str [])
    let fm0 : Header :=
      [("id".data, Value.str id),
       ("title".data, Value.str titleStr),
       ("slug".data, Value.str slug),
       ("description".data, descV),
       ("date".data, lookupOr oldFm ("date".data) (Value.str nowIso)),
       ("author".data, lookupOr oldFm ("author".data)
          (Value.str ("Author".data))),
       ("tags".data, lookupOr oldFm ("tags".data) (Value.arr [])),
       ("draft".data, lookupOr oldFm ("draft".data) (Value.bool false)),
       ("aliases".data, Value.arr [])]
    let fm1 := insertKV fm0 ("seoTitle".data)
      (lookupOr oldFm ("seoTitle".data) (Value.str titleStr))
    let fm2 := insertKV fm1 ("seoDescription".data)
      (lookupOr oldFm ("seoDescription".data) descV)
    let step3 : Option Header :=
      match lookupKV oldFm ("image".data) with
      | some v =>
        if truthy v then
          match v with
          | .str p => some (insertKV fm2 ("image".data)
              (Value.str (basenameOf p)))
          | _ => none
        else some fm2
      | none => some fm2
    match step3 with
    | none => none
    | some fm3 =>
      let step4 : Option Header :=
        match lookupKV oldFm ("category".data) with
        | some cv =>
          if truthy cv then
            match lookupOr oldFm ("tags".data) (Value.arr []), cv with
            | .arr l, .str c => some (insertKV fm3 ("tags".data)
                (Value.arr (l ++ [c])))
            | _, _ => none
          else some fm3
        | none => some fm3
      match step4 with
      | none => none
      | some fm4 =>
        let aliasPath := "/blog/".data ++ createSlug titleStr ++ "/".data
        let fm5 := insertKV fm4 ("aliases".data) (Value.arr [aliasPath])
        let fm6 :=
          match lookupKV oldFm ("featured".data) with
          | some v => if truthy v then insertKV fm5 ("featured".data) v else fm5
          | none => fm5
        let fm7 :=
          match lookupKV oldFm ("type".data) with
          | some v => if truthy v then insertKV fm6 ("type".data) v else fm6
          | none => fm6
        some (fm7, slug)

/-- The `importResults` counter record (the importer has no conflict
counter). -/
structure IRes where
  processed : Nat
  imported : Nat
  skipped : Nat
  errors : Nat
deriving DecidableEq, Repr

/-- Run state of `importContent`: the target tree (one entry per created
document directory with its `index.md`), the pending
(`Date.now()`, `Math.random().toString(36)`) observations, the
`new Date().toISOString()` reading, and the counters. -/
structure IState where
  fs : List (List Char × List Char)
  obs : List (Nat × List Char)
  nowIso : List Char
  res : IRes
deriving DecidableEq, Repr

/-- One iteration of `importContent`'s file loop: count `processed`, parse,
convert (consuming one clock/random observation for `generateULID`), skip
when the target directory `` `${id}--${slug}` `` already exists, otherwise
(live) create the directory and write the converted document — the body is
passed to `writeMarkdownFile` UNCHANGED: `importContent` never calls
`findPostAssets`, `copyPostAssets` or `updateAssetPaths`, so no asset entry
is ever added to the tree.  A caught exception counts as an error. -/
def importStep (dry : Bool) (st : IState) (file : List Char × List Char) :
    IState :=
  let st := { st with res := { st.res with processed := st.res.processed + 1 } }
  let pr := parseFrontmatter file.2
  let ob := st.obs.headD (0, [])
  let st := { st with obs := st.obs.tail }
  let id := generateULID ob.1 ob.2
  match convertFrontmatter pr.1 (basenameOf file.1) id st.nowIso with
  | none =>
    { st with res := { st.res with errors := st.res.errors + 1 } }
  | some (nfm, slug) =>
    let dirName := id ++ "--".data ++ slug
    if decide (dirName ∈ st.fs.map (·.1)) then
      { st with res := { st.res with skipped := st.res.skipped + 1 } }
    else
      let st' :=
        if dry then st
        else { st with fs := st.fs ++ [(dirName, writeMarkdownFile nfm pr.2)] }
      { st' with res := { st'.res with imported := st'.res.imported + 1 } }

/-- `importContent` over the source file list (name, raw content), the
initial target tree and the injected environment observations.  (Backup
creation and the `mkdirSync` of the target root precede this loop and do
not touch the per-document entries modelled here.) -/
def importContent (dry : Bool) (files : List (List Char × List Char))
    (fs0 : List (List Char × List Char)) (obs : List (Nat × List Char))
    (nowIso : List Char) : IState :=
  files.foldl (importStep dry) ⟨fs0, obs, nowIso, ⟨0, 0, 0, 0⟩⟩

set_option maxRecDepth 8000 in
/-- C4 counterexample: the import workflow reserves no slugs.  Two source
files with the same title `Hello` are BOTH imported successfully (distinct
generated identifiers give distinct directory names), and both written
documents carry the same slug `hello` — no conflict is recorded and
nothing is skipped. -/
theorem import_two_documents_share_slug :
    (importContent false
        [("a.md".data, "---\ntitle: Hello\n---\n\nx".data),
         ("b.md".data, "---\ntitle: Hello\n---\n\nx".data)]
        [] [(78364164096, "0.z".data), (78364164097, "0.z".data)]
        ("2025-01-01T00:00:00.000Z".data)).res.imported = 2 ∧
      (importContent false
        [("a.md".data, "---\ntitle: Hello\n---\n\nx".data),
         ("b.md".data, "---\ntitle: Hello\n---\n\nx".data)]
        [] [(78364164096, "0.z".data), (78364164097, "0.z".data)]
        ("2025-01-01T00:00:00.000Z".data)).fs.map
          (fun e => lookupKV (parseFrontmatter e.2).1 ("slug".data)) =
        [some (Value.str ("hello".data)), some (Value.str ("hello".data))] := by
  decide

set_option maxRecDepth 8000 in
/-- C8 (code bug): importing a document whose body references a local image
(`![alt](photo.png)`, with `photo.png` present next to the source file)
writes the body VERBATIM — the reference is not rewritten — and creates no
asset entry: the output tree is exactly the one new document directory.
`importContent` never calls `findPostAssets`, `copyPostAssets` or
`updateAssetPaths`, although they are defined for this purpose. -/
theorem import_leaves_image_reference_unrewritten :
    (importContent false
        [("post.md".data, "---\ntitle: Pic\n---\n\n![alt](photo.png)".data)]
        [] [(78364164096, "0.z".data)]
        ("2025-01-01T00:00:00.000Z".data)).res.imported = 1 ∧
      (importContent false
        [("post.md".data, "---\ntitle: Pic\n---\n\n![alt](photo.png)".data)]
        [] [(78364164096, "0.z".data)]
        ("2025-01-01T00:00:00.000Z".data)).fs =
      [("10000000Z000000000000000--pic".data,
        writeMarkdownFile
          [("id".data, Value.str ("10000000Z000000000000000".data)),
           ("title".data, Value.str ("Pic".data)),
           ("slug".data, Value.str ("pic".data)),
           ("description".data, Value.str []),
           ("date".data, Value.str ("2025-01-01T00:00:00.000Z".data)),
           ("author".data, Value.str ("Author".data)),
           ("tags".data, Value.arr []),
           ("draft".data, Value.bool false),
           ("aliases".data, Value.arr [("/blog/pic/".data)]),
           ("seoTitle".data, Value.str ("Pic".data)),
           ("seoDescription".data, Value.str [])]
          ("![alt](photo.png)".data))] := by
  decide

/-- An entry on which a later migration run cannot act: already in the new
format, not a ULID name, or a document without a truthy slug. -/
def StableEntry (e : List Char × Option (List Char)) : Prop :=
  isNewFormat e.1 = true ∨ isULID e.1 = false ∨
    (∃ c, e.2 = some c ∧
      ∀ v, lookupKV (parseFrontmatter c).1 ("slug".data) = some v →
        truthy v = false)

lemma lookupDir_mem (fs : FTree) (n : List Char) (oc : Option (List Char))
    (h : lookupDir fs n = some oc) : (n, oc) ∈ fs := by
  induction fs with
  | nil => simp [lookupDir] at h
  | cons e t ih =>
    obtain ⟨m, c⟩ := e
    by_cases hm : m = n
    · subst hm
      simp only [lookupDir, eq_self_iff_true, if_true, Option.some.injEq] at h
      subst h
      exact List.mem_cons_self _ _
    · simp only [lookupDir, if_neg hm] at h
      exact List.mem_cons_of_mem _ (ih h)

lemma lookupDir_eq_of_mem (fs : FTree) (n : List Char)
    (oc : Option (List Char)) (hnd : (dirNames fs).Nodup)
    (hm : (n, oc) ∈ fs) : lookupDir fs n = some oc := by
  induction fs with
  | nil => simp at hm
  | cons e t ih =>
    obtain ⟨m, c⟩ := e
    rcases List.mem_cons.mp hm with h | h
    · obtain ⟨h1, h2⟩ := Prod.mk.injEq .. ▸ h
      subst h1; subst h2
      simp [lookupDir]
    · have hm' : m ≠ n := by
        intro he
        subst he
        have : m ∈ dirNames t := by
          simpa [dirNames] using List.mem_map_of_mem Prod.fst h
        exact (List.nodup_cons.mp (by simpa [dirNames] using hnd)).1 this
      rw [lookupDir, if_neg hm']
      exact ih (List.nodup_cons.mp (by simpa [dirNames] using hnd)).2 h

/-- Exhaustive case analysis of one `migrateStep`: a skip (tree, map and
error/conflict/migrated counters untouched, one skip log entry whose class
records why), a missing-index error, a conflict, or a live migration. -/
lemma migrateStep_master (dry : Bool) (st : MState) (n : List Char) :
    ((migrateStep dry st n).fs = st.fs ∧
     (migrateStep dry st n).slugMap = st.slugMap ∧
     (migrateStep dry st n).res.migrated = st.res.migrated ∧
     (migrateStep dry st n).res.errors = st.res.errors ∧
     (migrateStep dry st n).res.conflicts = st.res.conflicts ∧
     ∃ cls, (migrateStep dry st n).log = st.log ++ [(n, cls)] ∧
       ((cls = MClass.alreadyNew ∧ isNewFormat n = true) ∨
        (cls = MClass.notUlid ∧ isNewFormat n = false ∧ isULID n = false) ∨
        (cls = MClass.noSlug ∧ isNewFormat n = false ∧ isULID n = true ∧
          ∃ c, lookupDir st.fs n = some (some c) ∧
            ∀ v, lookupKV (parseFrontmatter c).1 ("slug".data) = some v →
              truthy v = false))) ∨
    ((migrateStep dry st n).fs = st.fs ∧
     (migrateStep dry st n).res.errors = st.res.errors + 1 ∧
     (migrateStep dry st n).res.conflicts = st.res.conflicts ∧
     isNewFormat n = false ∧ isULID n = true ∧
     (lookupDir st.fs n = none ∨ lookupDir st.fs n = some none)) ∨
    ((migrateStep dry st n).fs = st.fs ∧
     (migrateStep dry st n).res.errors = st.res.errors ∧
     (migrateStep dry st n).res.conflicts = st.res.conflicts + 1 ∧
     isNewFormat n = false ∧ isULID n = true ∧
     (∃ content slugV, lookupDir st.fs n = some (some content) ∧
       lookupKV (parseFrontmatter content).1 ("slug".data) = some slugV ∧
       truthy slugV = true)) ∨
    (∃ content slugV,
      isNewFormat n = false ∧ isULID n = true ∧
      lookupDir st.fs n = some (some content) ∧
      lookupKV (parseFrontmatter content).1 ("slug".data) = some slugV ∧
      truthy slugV = true ∧
      n ++ '-' :: '-' :: valueToString slugV ∉ dirNames st.fs ∧
      (migrateStep dry st n).res.errors = st.res.errors ∧
      (migrateStep dry st n).res.conflicts = st.res.conflicts ∧
      (migrateStep dry st n).fs =
        (if dry then st.fs
         else st.fs.filter (fun e => e.1 != n) ++
           [(n ++ '-' :: '-' :: valueToString slugV,
             some (writeMarkdownFileSimple
               (updatedFrontmatter (parseFrontmatter content).1 slugV)
               (parseFrontmatter content).2))])) := by
  by_cases h1 : isNewFormat n = true
  · refine Or.inl ⟨?_, ?_, ?_, ?_, ?_, MClass.alreadyNew, ?_, Or.inl ⟨rfl, h1⟩⟩
      <;> simp [migrateStep, h1]
  · rw [Bool.not_eq_true] at h1
    by_cases h2 : isULID n = true
    · cases hld : lookupDir st.fs n with
      | none =>
        refine Or.inr (Or.inl ⟨?_, ?_, ?_, h1, h2, Or.inl rfl⟩)
          <;> simp [migrateStep, h1, h2, hld]
      | some oc =>
        cases oc with
        | none =>
          refine Or.inr (Or.inl ⟨?_, ?_, ?_, h1, h2, Or.inr rfl⟩)
            <;> simp [migrateStep, h1, h2, hld]
        | some content =>
          cases hsl : lookupKV (parseFrontmatter content).1 ("slug".data) with
          | none =>
            refine Or.inl ⟨?_, ?_, ?_, ?_, ?_, MClass.noSlug, ?_,
              Or.inr (Or.inr ⟨rfl, h1, h2, content, rfl, ?_⟩)⟩
              <;> simp [migrateStep, h1, h2, hld, hsl]
          | some slugV =>
            by_cases htr : truthy slugV = true
            · by_cases hres : slugReserved st.slugMap slugV = true
              · refine Or.inr (Or.inr (Or.inl ⟨?_, ?_, ?_, h1, h2,
                  content, slugV, rfl, hsl, htr⟩))
                  <;> simp [migrateStep, h1, h2, hld, hsl, htr, hres]
              · rw [Bool.not_eq_true] at hres
                by_cases htg :
                    n ++ '-' :: '-' :: valueToString slugV ∈ dirNames st.fs
                · refine Or.inr (Or.inr (Or.inl ⟨?_, ?_, ?_, h1, h2,
                    content, slugV, rfl, hsl, htr⟩))
                    <;> simp [migrateStep, h1, h2, hld, hsl, htr, hres, htg]
                · refine Or.inr (Or.inr (Or.inr
                    ⟨content, slugV, h1, h2, rfl, hsl, htr, htg, ?_, ?_, ?_⟩))
                    <;> simp [migrateStep, h1, h2, hld, hsl, htr, hres, htg]
            · rw [Bool.not_eq_true] at htr
              refine Or.inl ⟨?_, ?_, ?_, ?_, ?_, MClass.noSlug, ?_,
                Or.inr (Or.inr ⟨rfl, h1, h2, content, rfl, ?_⟩)⟩
                <;> simp [migrateStep, h1, h2, hld, hsl, htr]
    · rw [Bool.not_eq_true] at h2
      refine Or.inl ⟨?_, ?_, ?_, ?_, ?_, MClass.notUlid, ?_,
        Or.inr (Or.inl ⟨rfl, h1, h2⟩)⟩ <;> simp [migrateStep, h1, h2]

lemma migrateStep_errors_mono (dry : Bool) (st : MState) (n : List Char) :
    st.res.errors ≤ (migrateStep dry st n).res.errors := by
  rcases migrateStep_master dry st n with
    ⟨_, _, _, he, _, _⟩ | ⟨_, he, _, _⟩ | ⟨_, he, _⟩ |
    ⟨_, _, _, _, _, _, _, _, he, _⟩ <;> omega

lemma migrateStep_conflicts_mono (dry : Bool) (st : MState) (n : List Char) :
    st.res.conflicts ≤ (migrateStep dry st n).res.conflicts := by
  rcases migrateStep_master dry st n with
    ⟨_, _, _, _, hc, _⟩ | ⟨_, _, hc, _⟩ | ⟨_, _, hc, _⟩ |
    ⟨_, _, _, _, _, _, _, _, _, hc, _⟩ <;> omega

lemma foldl_errors_mono (dry : Bool) (l : List (List Char)) :
    ∀ st : MState,
      st.res.errors ≤ (l.foldl (migrateStep dry) st).res.errors := by
  induction l with
  | nil => intro st; exact le_refl _
  | cons n t ih =>
    intro st
    exact le_trans (migrateStep_errors_mono dry st n) (ih _)

lemma foldl_conflicts_mono (dry : Bool) (l : List (List Char)) :
    ∀ st : MState,
      st.res.conflicts ≤ (l.foldl (migrateStep dry) st).res.conflicts := by
  induction l with
  | nil => intro st; exact le_refl _
  | cons n t ih =>
    intro st
    exact le_trans (migrateStep_conflicts_mono dry st n) (ih _)

lemma isULID_length (n : List Char) (h : isULID n = true) : n.length = 26 := by
  simp only [isULID, Bool.and_eq_true, beq_iff_eq] at h
  exact h.1

lemma isULID_newName_false (n s : List Char) (h : isULID n = true) :
    isULID (n ++ '-' :: '-' :: s) = false := by
  have hl : (n ++ '-' :: '-' :: s).length = 28 + s.length := by
    simp [List.length_append, isULID_length n h]
    omega
  simp only [isULID, Bool.and_eq_false_iff]
  left
  simp [hl]
  omega

lemma dirNames_filter (fs : FTree) (n : List Char) :
    dirNames (fs.filter (fun e => e.1 != n)) =
      (dirNames fs).filter (fun m => m != n) := by
  induction fs with
  | nil => rfl
  | cons e t ih =>
    by_cases h : e.1 = n
    · simp [dirNames, List.filter, h, bne_self_eq_false] at *
      exact ih
    · have hb : (e.1 != n) = true := by simpa using h
      simp only [dirNames, List.filter, List.map_cons, hb] at *
      simp [ih]

lemma lookupDir_isSome_of_mem (fs : FTree) (n : List Char)
    (h : n ∈ dirNames fs) : ∃ oc, lookupDir fs n = some oc := by
  induction fs with
  | nil => simp [dirNames] at h
  | cons e t ih =>
    obtain ⟨m, c⟩ := e
    simp only [dirNames, List.map_cons] at h
    rcases List.mem_cons.mp h with h1 | h1
    · exact ⟨c, by simp [lookupDir, h1.symm]⟩
    · by_cases hm : m = n
      · exact ⟨c, by simp [lookupDir, hm]⟩
      · obtain ⟨oc, hoc⟩ := ih (by simpa [dirNames] using h1)
        exact ⟨oc, by simpa [lookupDir, hm] using hoc⟩

/-- First run, live: if the whole run ends with zero errors and zero
conflicts, every entry of the final tree is `StableEntry`, and the tree's
names stay duplicate-free. -/
lemma foldl_run1_stable (l : List (List Char)) :
    ∀ st : MState,
      (dirNames st.fs).Nodup →
      (∀ e ∈ st.fs, StableEntry e ∨ e.1 ∈ l) →
      (l.foldl (migrateStep false) st).res.errors = st.res.errors →
      (l.foldl (migrateStep false) st).res.conflicts = st.res.conflicts →
      (∀ e ∈ (l.foldl (migrateStep false) st).fs, StableEntry e) ∧
        (dirNames (l.foldl (migrateStep false) st).fs).Nodup := by
  induction l with
  | nil =>
    intro st hnd hp _ _
    exact ⟨fun e he => (hp e he).resolve_right (by simp), hnd⟩
  | cons n t ih =>
    intro st hnd hp herr hconf
    rw [List.foldl_cons] at herr hconf ⊢
    rcases migrateStep_master false st n with
      ⟨hfs, _, _, he, hc, cls, hlog, hcls⟩ |
      ⟨hfs, he, hc, hnf, hul, hld⟩ |
      ⟨hfs, he, hc, hnf, hul, hcs⟩ |
      ⟨content, slugV, hnf, hul, hld, hsl, htr, htg, he, hc, hfs⟩
    · -- skip branch: the processed entry itself became provably stable
      apply ih (migrateStep false st n)
      · rw [hfs]; exact hnd
      · intro e he'
        rw [hfs] at he'
        rcases hp e he' with hst | hme
        · exact Or.inl hst
        · rcases List.mem_cons.mp hme with heq | hel
          · left
            rcases hcls with ⟨_, hnew⟩ | ⟨_, _, hulid⟩ | ⟨_, _, _, c, hldc, hslg⟩
            · exact Or.inl (heq ▸ hnew)
            · exact Or.inr (Or.inl (heq ▸ hulid))
            · have hle : lookupDir st.fs e.1 = some e.2 :=
                lookupDir_eq_of_mem _ _ _ hnd (by rw [Prod.mk.eta]; exact he')
              rw [heq, hldc] at hle
              have he2 : e.2 = some c := by
                injection hle with hle'
                exact hle'.symm
              exact Or.inr (Or.inr ⟨c, he2, hslg⟩)
          · exact Or.inr hel
      · rw [herr, he]
      · rw [hconf, hc]
    · exfalso
      have hmono := foldl_errors_mono false t (migrateStep false st n)
      omega
    · exfalso
      have hmono := foldl_conflicts_mono false t (migrateStep false st n)
      omega
    · -- live migration: the old entry is replaced by a stable one
      simp only [Bool.false_eq_true, if_false] at hfs
      apply ih (migrateStep false st n)
      · rw [hfs]
        simp only [dirNames, List.map_append, List.map_cons, List.map_nil]
        rw [show (fun (e : List Char × Option (List Char)) => e.1 != n) =
              (fun e => e.1 != n) from rfl]
        rw [List.nodup_append]
        refine ⟨?_, List.nodup_singleton _, ?_⟩
        · have : dirNames (st.fs.filter (fun e => e.1 != n)) =
              (dirNames st.fs).filter (fun m => m != n) := dirNames_filter st.fs n
          simp only [dirNames] at this
          rw [this]
          exact hnd.filter _
        · intro a ha hb
          simp only [List.mem_singleton] at hb
          subst hb
          have : dirNames (st.fs.filter (fun e => e.1 != n)) =
              (dirNames st.fs).filter (fun m => m != n) := dirNames_filter st.fs n
          simp only [dirNames] at this
          rw [this] at ha
          exact htg (List.mem_of_mem_filter ha)
      · intro e he'
        rw [hfs] at he'
        rcases List.mem_append.mp he' with hmem | hmem
        · have hm2 := List.mem_filter.mp hmem
          rcases hp e hm2.1 with hst | hme
          · exact Or.inl hst
          · rcases List.mem_cons.mp hme with heq | hel
            · exact absurd heq (by simpa using hm2.2)
            · exact Or.inr hel
        · simp only [List.mem_singleton] at hmem
          subst hmem
          exact Or.inl (Or.inr (Or.inl (isULID_newName_false n _ hul)))
      · rw [herr, he]
      · rw [hconf, hc]

/-- Second run over a tree whose entries are all stable: every folder is
skipped, the tree, the map and the migrated/error/conflict counters are
untouched, and each new log entry is a skip that reads `alreadyNew` exactly
when the folder name matches the new-format pattern. -/
lemma foldl_run2_stable (l : List (List Char)) :
    ∀ st : MState,
      (∀ e ∈ st.fs, StableEntry e) →
      (∀ m ∈ l, m ∈ dirNames st.fs) →
      (l.foldl (migrateStep false) st).fs = st.fs ∧
        (l.foldl (migrateStep false) st).res.migrated = st.res.migrated ∧
        (l.foldl (migrateStep false) st).res.errors = st.res.errors ∧
        (l.foldl (migrateStep false) st).res.conflicts = st.res.conflicts ∧
        ∀ p ∈ (l.foldl (migrateStep false) st).log,
          p ∈ st.log ∨
            ((p.2 = MClass.alreadyNew ∨ p.2 = MClass.notUlid ∨
                p.2 = MClass.noSlug) ∧
              (p.2 = MClass.alreadyNew ↔ isNewFormat p.1 = true)) := by
  induction l with
  | nil =>
    intro st _ _
    exact ⟨rfl, rfl, rfl, rfl, fun p hp => Or.inl hp⟩
  | cons n t ih =>
    intro st hst hl
    rw [List.foldl_cons]
    have hnmem : n ∈ dirNames st.fs := hl n (List.mem_cons_self _ _)
    rcases migrateStep_master false st n with
      ⟨hfs, _, hmig, he, hc, cls, hlog, hcls⟩ |
      ⟨_, _, _, hnf, hul, hld⟩ |
      ⟨_, _, _, hnf, hul, hcs⟩ |
      ⟨content, slugV, hnf, hul, hld, hsl, htr, _, _, _, _⟩
    · obtain ⟨h1, h2, h3, h4, h5⟩ := ih (migrateStep false st n)
        (by rw [hfs]; exact hst) (fun m hm => by
          rw [hfs]; exact hl m (List.mem_cons_of_mem _ hm))
      refine ⟨h1.trans hfs, h2.trans hmig, h3.trans he, h4.trans hc, ?_⟩
      intro p hp
      rcases h5 p hp with hpl | hgood
      · rw [hlog] at hpl
        rcases List.mem_append.mp hpl with hpl | hpl
        · exact Or.inl hpl
        · simp only [List.mem_singleton] at hpl
          subst hpl
          right
          rcases hcls with ⟨hcs, hnew⟩ | ⟨hcs, hnf2, _⟩ | ⟨hcs, hnf2, _⟩
          · exact ⟨Or.inl hcs, by rw [hcs]; exact iff_of_true rfl hnew⟩
          · refine ⟨Or.inr (Or.inl hcs), ?_⟩
            rw [hcs]
            constructor
            · intro h'; cases h'
            · intro h'; rw [hnf2] at h'; cases h'
          · refine ⟨Or.inr (Or.inr hcs), ?_⟩
            rw [hcs]
            constructor
            · intro h'; cases h'
            · intro h'; rw [hnf2] at h'; cases h'
      · exact Or.inr hgood
    · exfalso
      rcases hld with hld | hld
      · obtain ⟨oc, hoc⟩ := lookupDir_isSome_of_mem st.fs n hnmem
        rw [hld] at hoc; cases hoc
      · have hmem := lookupDir_mem st.fs n none hld
        rcases hst _ hmem with h' | h' | ⟨c, hc', _⟩
        · rw [hnf] at h'; cases h'
        · rw [hul] at h'; cases h'
        · cases hc'
    · exfalso
      obtain ⟨content, slugV, hld, hsl, htr⟩ := hcs
      have hmem := lookupDir_mem st.fs n (some content) hld
      rcases hst _ hmem with h' | h' | ⟨c, hc', hslg⟩
      · rw [hnf] at h'; cases h'
      · rw [hul] at h'; cases h'
      · injection hc' with hc'
        subst hc'
        rw [hslg slugV hsl] at htr; cases htr
    · exfalso
      have hmem := lookupDir_mem st.fs n (some content) hld
      rcases hst _ hmem with h' | h' | ⟨c, hc', hslg⟩
      · rw [hnf] at h'; cases h'
      · rw [hul] at h'; cases h'
      · injection hc' with hc'
        subst hc'
        rw [hslg slugV hsl] at htr; cases htr

/-- C3 (amended): after a successful live structural migration (zero errors
and zero conflicts), running the migration again on the produced tree
performs no change at all — nothing is migrated, errored or conflicted and
the tree is identical — and every entry is classified as a skip: as
"already migrated" EXACTLY when its name matches the new-format pattern
`[0-9A-HJKMNP-TV-Z]{26}--.+` (a migrated entry whose 26-character
identifier contains characters outside that alphabet, e.g. lowercase, is
instead skipped as "not a valid ULID"), and otherwise as not-a-ULID or as
missing its slug. -/
theorem migration_idempotent (fs0 : FTree) (hnd : (dirNames fs0).Nodup)
    (herr : (migratePosts false fs0).res.errors = 0)
    (hconf : (migratePosts false fs0).res.conflicts = 0) :
    (migratePosts false (migratePosts false fs0).fs).fs =
        (migratePosts false fs0).fs ∧
      (migratePosts false (migratePosts false fs0).fs).res.migrated = 0 ∧
      (migratePosts false (migratePosts false fs0).fs).res.errors = 0 ∧
      (migratePosts false (migratePosts false fs0).fs).res.conflicts = 0 ∧
      ∀ p ∈ (migratePosts false (migratePosts false fs0).fs).log,
        (p.2 = MClass.alreadyNew ∨ p.2 = MClass.notUlid ∨
            p.2 = MClass.noSlug) ∧
          (p.2 = MClass.alreadyNew ↔ isNewFormat p.1 = true) := by
  unfold migratePosts at herr hconf ⊢
  obtain ⟨hstab, _⟩ := foldl_run1_stable (dirNames fs0)
    ⟨fs0, [], [], ⟨0, 0, 0, 0, 0⟩⟩ hnd
    (fun e he => Or.inr (List.mem_map_of_mem _ he)) herr hconf
  set r1fs := ((dirNames fs0).foldl (migrateStep false)
    ⟨fs0, [], [], ⟨0, 0, 0, 0, 0⟩⟩).fs with hr1
  obtain ⟨h1, h2, h3, h4, h5⟩ := foldl_run2_stable (dirNames r1fs)
    ⟨r1fs, [], [], ⟨0, 0, 0, 0, 0⟩⟩ hstab (fun m hm => hm)
  refine ⟨h1, h2, h3, h4, ?_⟩
  intro p hp
  rcases h5 p hp with hpl | hgood
  · cases hpl
  · exact hgood

/-- Witness for `migration_idempotent` on a one-folder tree whose
identifier is in the Crockford alphabet. -/
theorem migration_idempotent_witness :
    let fs0 : FTree := [("01ARZ3NDEKTSV4RRFFQ69G5FAV".data,
      some ("---\nslug: post\n---\n\nx".data))]
    (migratePosts false (migratePosts false fs0).fs).fs =
        (migratePosts false fs0).fs ∧
      (migratePosts false (migratePosts false fs0).fs).res.migrated = 0 ∧
      (migratePosts false (migratePosts false fs0).fs).res.errors = 0 ∧
      (migratePosts false (migratePosts false fs0).fs).res.conflicts = 0 ∧
      ∀ p ∈ (migratePosts false (migratePosts false fs0).fs).log,
        (p.2 = MClass.alreadyNew ∨ p.2 = MClass.notUlid ∨
            p.2 = MClass.noSlug) ∧
          (p.2 = MClass.alreadyNew ↔ isNewFormat p.1 = true) := by
  intro fs0
  exact migration_idempotent fs0 (by decide) (by decide) (by decide)

set_option maxRecDepth 4000 in
/-- C3 counterexample: a successful first run (one folder migrated, zero
errors, zero conflicts) whose 26-character identifier is lowercase.  On the
second run the migrated entry is NOT classified as already migrated
(`isNewFormat` only accepts uppercase Crockford identifiers): it is skipped
with the "not a valid ULID" warning instead. -/
theorem migration_second_run_not_already_migrated :
    (migratePosts false [("abcdefghijklmnopqrstuvwxyz".data,
        some ("---\nslug: post\n---\n\nx".data))]).res =
      ⟨1, 1, 0, 0, 0⟩ ∧
    (migratePosts false
        (migratePosts false [("abcdefghijklmnopqrstuvwxyz".data,
          some ("---\nslug: post\n---\n\nx".data))]).fs).log.map
      (fun p => p.2) = [MClass.notUlid] ∧
    MClass.notUlid ≠ MClass.alreadyNew := by
  decide

/-- A header key the codec round-trips: nonempty, trim-stable, without
colon or newline, not starting the line as a comment. -/
def GoodKey (k : List Char) : Prop :=
  k ≠ [] ∧ trimJS k = k ∧ ':' ∉ k ∧ '\n' ∉ k ∧ k.head? ≠ some '#'

/-- A string value the importer's quoted encoding round-trips: no newline,
no embedded double quote, and not bracket-wrapped (which the decoder would
re-parse as a list after stripping the quotes). -/
def GoodVal (v : List Char) : Prop :=
  '\n' ∉ v ∧ dquote ∉ v ∧ wrappedIn v '[' ']' = false

/-- The text of one quoted header line, without its terminating newline. -/
def mkLine (k v : List Char) : List Char := k ++ ": ".data ++ yamlQuote v

/-- Header lines joined with every line newline-terminated (the region as
written, between the delimiters). -/
def joinNl : List (List Char) → List Char
  | [] => []
  | t :: ts => t ++ '\n' :: joinNl ts

/-- Header lines joined with separating newlines only (the regex capture:
no trailing newline). -/
def interNl : List (List Char) → List Char
  | [] => []
  | [t] => t
  | t :: ts => t ++ '\n' :: interNl ts

lemma escapeDQ_eq_self (v : List Char) (h : dquote ∉ v) : escapeDQ v = v := by
  induction v with
  | nil => rfl
  | cons c cs ih =>
    have hc : c ≠ dquote := fun he => h (he ▸ List.mem_cons_self _ _)
    have hcs : dquote ∉ cs := fun hm => h (List.mem_cons_of_mem _ hm)
    simp only [escapeDQ, List.foldr_cons, if_neg hc]
    exact congrArg (c :: ·) (ih hcs)

lemma trimJS_eq_self (s : List Char) (h1 : s.dropWhile isWS = s)
    (h2 : s.reverse.dropWhile isWS = s.reverse) : trimJS s = s := by
  unfold trimJS
  rw [h1, h2, List.reverse_reverse]

lemma dropWhile_cons_head (c : Char) (l : List Char) (h : isWS c = false) :
    (c :: l).dropWhile isWS = c :: l := by
  rw [List.dropWhile_cons, h]
  simp

lemma trimJS_head_ne_ws (k : List Char) (hne : k ≠ [])
    (ht : trimJS k = k) : isWS k.head! = false := by
  cases k with
  | nil => exact absurd rfl hne
  | cons c k' =>
    by_contra hws
    rw [Bool.not_eq_false] at hws
    have hwsc : isWS c = true := by simpa using hws
    have hlen : (trimJS (c :: k')).length < (c :: k').length := by
      have hd : (c :: k').dropWhile isWS = k'.dropWhile isWS := by
        rw [List.dropWhile_cons, if_pos hwsc]
      have h1 : ((c :: k').dropWhile isWS).length ≤ k'.length := by
        rw [hd]
        exact (List.dropWhile_suffix isWS).sublist.length_le
      have h2 : (trimJS (c :: k')).length ≤
          ((c :: k').dropWhile isWS).length := by
        unfold trimJS
        rw [List.length_reverse]
        calc ((((c :: k').dropWhile isWS).reverse.dropWhile isWS)).length
            ≤ (((c :: k').dropWhile isWS).reverse).length :=
              (List.dropWhile_suffix isWS).sublist.length_le
          _ = (((c :: k').dropWhile isWS)).length := List.length_reverse _
      simp only [List.length_cons]
      omega
    rw [ht] at hlen
    omega

lemma takeWhile_ne_colon (k : List Char) (r : List Char) (h : ':' ∉ k) :
    (k ++ ':' :: r).takeWhile (fun c => c != ':') = k := by
  induction k with
  | nil => simp [List.takeWhile]
  | cons c k' ih =>
    have hc : c ≠ ':' := fun he => h (he ▸ List.mem_cons_self _ _)
    have hk' : ':' ∉ k' := fun hm => h (List.mem_cons_of_mem _ hm)
    simp only [List.cons_append, List.takeWhile_cons]
    have : (c != ':') = true := by simpa using hc
    rw [this]
    simp [ih hk']

lemma drop_after_key (k r : List Char) :
    (k ++ ':' :: r).drop (k.length + 1) = r := by
  induction k with
  | nil => simp
  | cons c k' ih => simp [ih]

lemma splitNl_no_nl (t : List Char) (h : '\n' ∉ t) : splitNl t = [t] := by
  induction t with
  | nil => rfl
  | cons c cs ih =>
    have hc : c ≠ '\n' := fun he => h (he ▸ List.mem_cons_self _ _)
    have hcs : '\n' ∉ cs := fun hm => h (List.mem_cons_of_mem _ hm)
    rw [splitNl, if_neg hc, ih hcs]

lemma splitNl_append_nl (t u : List Char) (h : '\n' ∉ t) :
    splitNl (t ++ '\n' :: u) = t :: splitNl u := by
  induction t with
  | nil => simp [splitNl]
  | cons c cs ih =>
    have hc : c ≠ '\n' := fun he => h (he ▸ List.mem_cons_self _ _)
    have hcs : '\n' ∉ cs := fun hm => h (List.mem_cons_of_mem _ hm)
    rw [List.cons_append, splitNl, if_neg hc, ih hcs]

lemma splitNl_interNl (ts : List (List Char)) (hne : ts ≠ [])
    (h : ∀ t ∈ ts, '\n' ∉ t) : splitNl (interNl ts) = ts := by
  induction ts with
  | nil => exact absurd rfl hne
  | cons t ts ih =>
    cases ts with
    | nil => exact splitNl_no_nl t (h t (List.mem_cons_self _ _))
    | cons t2 ts' =>
      rw [show interNl (t :: t2 :: ts') = t ++ '\n' :: interNl (t2 :: ts')
            from rfl,
          splitNl_append_nl t _ (h t (List.mem_cons_self _ _)),
          ih (by simp) (fun x hx => h x (List.mem_cons_of_mem _ hx))]

lemma takeWhile_append_stops (y z : List Char)
    (h : ∃ c ∈ y, isWS c = false) :
    (y ++ z).takeWhile isWS = y.takeWhile isWS := by
  induction y with
  | nil => obtain ⟨c, hc, _⟩ := h; simp at hc
  | cons c y' ih =>
    by_cases hc : isWS c
    · have h' : ∃ d ∈ y', isWS d = false := by
        obtain ⟨d, hd, hdf⟩ := h
        rcases List.mem_cons.mp hd with he | he
        · subst he; rw [hc] at hdf; cases hdf
        · exact ⟨d, he, hdf⟩
      simp only [List.cons_append, List.takeWhile_cons, hc]
      rw [ih h']
    · simp only [Bool.not_eq_true] at hc
      simp [List.takeWhile_cons, hc]

lemma bsplit_none (x : List Char)
    (h : ∀ c ∈ x.takeWhile isWS, c ≠ '\n') : bsplit x = none := by
  induction x with
  | nil => rfl
  | cons c cs ih =>
    by_cases hc : isWS c
    · have hhead : c ≠ '\n' := by
        apply h
        simp [List.takeWhile_cons, hc]
      have htail : ∀ d ∈ cs.takeWhile isWS, d ≠ '\n' := by
        intro d hd
        apply h
        simp only [List.takeWhile_cons, hc]
        exact List.mem_cons_of_mem _ hd
      rw [bsplit, if_pos hc, ih htail, if_neg hhead]
    · simp only [Bool.not_eq_true] at hc
      rw [bsplit, hc]
      simp

lemma mem_of_mem_takeWhile (p : Char → Bool) (l : List Char) (d : Char)
    (h : d ∈ l.takeWhile p) : d ∈ l := by
  induction l with
  | nil => simp [List.takeWhile] at h
  | cons c cs ih =>
    rw [List.takeWhile_cons] at h
    by_cases hc : p c
    · rw [if_pos hc] at h
      rcases List.mem_cons.mp h with he | he
      · exact he ▸ List.mem_cons_self _ _
      · exact List.mem_cons_of_mem _ (ih he)
    · rw [if_neg hc] at h
      simp at h

lemma take3_of_append (t w : List Char)
    (h : (t ++ '\n' :: w).take 3 = ['-', '-', '-']) :
    t.take 3 = ['-', '-', '-'] ∧ 3 ≤ t.length := by
  cases t with
  | nil => simp [List.take] at h
  | cons a t1 =>
    cases t1 with
    | nil => simp [List.take] at h
    | cons b t2 =>
      cases t2 with
      | nil => simp [List.take] at h
      | cons c t3 =>
        refine ⟨?_, by simp⟩
        simpa [List.take] using h

/-- A header line the scanner walks over without closing the region: no
embedded newline, and if it starts with `---` the rest of the line has a
non-whitespace character (so the `\s*\n` after a candidate close fails). -/
def SafeLine (t : List Char) : Prop :=
  '\n' ∉ t ∧
    (t.take 3 = ['-', '-', '-'] → ∃ c ∈ t.drop 3, isWS c = false)

lemma splitClose_skip (t : List Char) (u : List Char) (h : '\n' ∉ t) :
    splitClose (t ++ u) = (splitClose u).map (fun p => (t ++ p.1, p.2)) := by
  induction t with
  | nil =>
    cases hsc : splitClose u <;> simp [hsc]
  | cons c t' ih =>
    have hc : c ≠ '\n' := fun he => h (he ▸ List.mem_cons_self _ _)
    have h' : '\n' ∉ t' := fun hm => h (List.mem_cons_of_mem _ hm)
    rw [List.cons_append, splitClose, if_neg (fun hh => hc hh.1), ih h']
    cases splitClose u <;> simp

lemma splitClose_cons_nl (cs : List Char)
    (h : cs.take 3 = ['-', '-', '-'] → bsplit (cs.drop 3) = none) :
    splitClose ('\n' :: cs) =
      (splitClose cs).map (fun p => ('\n' :: p.1, p.2)) := by
  by_cases h3 : cs.take 3 = ['-', '-', '-']
  · rw [splitClose, if_pos ⟨rfl, h3⟩, h h3]
  · rw [splitClose, if_neg (fun hh => h3 hh.2)]

lemma bsplit_close_tail (body : List Char)
    (hbody : ∀ c ∈ body.takeWhile isWS, c ≠ '\n') :
    bsplit ('\n' :: '\n' :: body) = some body := by
  rw [bsplit, if_pos (by decide), bsplit, if_pos (by decide),
    bsplit_none body hbody]
  simp

lemma splitClose_lines (ts : List (List Char)) (body : List Char) :
    ts ≠ [] →
    (∀ t ∈ ts, SafeLine t) →
    (∀ c ∈ body.takeWhile isWS, c ≠ '\n') →
    splitClose (joinNl ts ++ '-' :: '-' :: '-' :: '\n' :: '\n' :: body) =
      some (interNl ts, body) := by
  induction ts with
  | nil => intro h; exact absurd rfl h
  | cons t ts ih =>
    intro _ hsafe hbody
    have hsl := hsafe t (List.mem_cons_self _ _)
    rw [show joinNl (t :: ts) = t ++ '\n' :: joinNl ts from rfl,
      List.append_assoc, List.cons_append, splitClose_skip t _ hsl.1]
    cases ts with
    | nil =>
      simp only [joinNl, List.nil_append]
      rw [splitClose, if_pos ⟨rfl, rfl⟩,
        show List.drop 3 ('-' :: '-' :: '-' :: '\n' :: '\n' :: body) =
          '\n' :: '\n' :: body from rfl,
        bsplit_close_tail body hbody]
      simp [interNl]
    | cons t2 ts' =>
      have hsl2 := hsafe t2 (List.mem_cons_of_mem _ (List.mem_cons_self _ _))
      have hjoin : joinNl (t2 :: ts') ++
          '-' :: '-' :: '-' :: '\n' :: '\n' :: body =
          t2 ++ '\n' :: (joinNl ts' ++
            '-' :: '-' :: '-' :: '\n' :: '\n' :: body) := by
        rw [show joinNl (t2 :: ts') = t2 ++ '\n' :: joinNl ts' from rfl]
        simp
      rw [splitClose_cons_nl]
      · rw [ih (by simp)
          (fun x hx => hsafe x (List.mem_cons_of_mem _ hx)) hbody]
        simp [interNl]
      · intro h3
        rw [hjoin] at h3
        obtain ⟨ht3, hlen3⟩ := take3_of_append t2 _ h3
        obtain ⟨c0, hc0m, hc0⟩ := hsl2.2 ht3
        rw [hjoin, List.drop_append_eq_append_drop,
          show 3 - t2.length = 0 from by omega, List.drop_zero]
        apply bsplit_none
        intro d hd
        rw [takeWhile_append_stops _ _ ⟨c0, hc0m, hc0⟩] at hd
        have : d ∈ t2 :=
          List.mem_of_mem_drop (mem_of_mem_takeWhile isWS _ d hd)
        exact fun he => hsl2.1 (he ▸ this)

lemma parseLine_mkLine (k v : List Char) (hk : GoodKey k) (hv : GoodVal v) :
    parseLine (mkLine k v) = some (k, Value.str v) := by
  obtain ⟨hkne, hktrim, hkcolon, hknl, hkhash⟩ := hk
  obtain ⟨hvnl, hvdq, hvbr⟩ := hv
  obtain ⟨c, k', rfl⟩ : ∃ c k', k = c :: k' := by
    cases k with
    | nil => exact absurd rfl hkne
    | cons c k' => exact ⟨c, k', rfl⟩
  have hline : mkLine (c :: k') v =
      c :: (k' ++ ':' :: ' ' :: dquote :: (v ++ [dquote])) := by
    unfold mkLine yamlQuote
    rw [escapeDQ_eq_self v hvdq,
      show (": ".data : List Char) = [':', ' '] from rfl]
    simp
  have hcws : isWS c = false := by
    simpa using trimJS_head_ne_ws (c :: k') hkne hktrim
  have hchash : c ≠ '#' := by
    intro he
    exact hkhash (by rw [he]; rfl)
  have htrim : trimJS (c :: (k' ++ ':' :: ' ' :: dquote :: (v ++ [dquote]))) =
      c :: (k' ++ ':' :: ' ' :: dquote :: (v ++ [dquote])) := by
    apply trimJS_eq_self
    · exact dropWhile_cons_head _ _ hcws
    · rw [show c :: (k' ++ ':' :: ' ' :: dquote :: (v ++ [dquote])) =
          (c :: (k' ++ ':' :: ' ' :: dquote :: v)) ++ [dquote] from by simp,
        List.reverse_append]
      simp only [List.reverse_cons, List.reverse_nil, List.nil_append,
        List.singleton_append]
      exact dropWhile_cons_head _ _ (by decide)
  have hsfc : splitFirstColon
      (c :: (k' ++ ':' :: ' ' :: dquote :: (v ++ [dquote]))) =
      some (c :: k', ' ' :: dquote :: (v ++ [dquote])) := by
    simp only [splitFirstColon]
    rw [show c :: (k' ++ ':' :: ' ' :: dquote :: (v ++ [dquote])) =
        (c :: k') ++ ':' :: (' ' :: dquote :: (v ++ [dquote])) from rfl,
      takeWhile_ne_colon (c :: k') _ hkcolon,
      drop_after_key (c :: k') _]
    rw [if_neg (by simp)]
  have hv0 : trimJS (' ' :: dquote :: (v ++ [dquote])) =
      dquote :: (v ++ [dquote]) := by
    have h1 : (' ' :: dquote :: (v ++ [dquote])).dropWhile isWS =
        dquote :: (v ++ [dquote]) := by
      rw [List.dropWhile_cons, if_pos (by decide)]
      exact dropWhile_cons_head _ _ (by decide)
    have h2 : (dquote :: (v ++ [dquote])).reverse.dropWhile isWS =
        (dquote :: (v ++ [dquote])).reverse := by
      rw [show dquote :: (v ++ [dquote]) = (dquote :: v) ++ [dquote]
            from by simp,
        List.reverse_append]
      simp only [List.reverse_cons, List.reverse_nil, List.nil_append,
        List.singleton_append]
      exact dropWhile_cons_head _ _ (by decide)
    unfold trimJS
    rw [h1, h2, List.reverse_reverse]
  have hwrap : wrappedIn (dquote :: (v ++ [dquote])) dquote dquote = true := by
    have hgl : (dquote :: (v ++ [dquote])).getLast? = some dquote := by
      rw [show dquote :: (v ++ [dquote]) = (dquote :: v) ++ [dquote]
            from by simp]
      exact List.getLast?_concat _
    simp [wrappedIn, hgl]
  have hv1 : ((dquote :: (v ++ [dquote])).drop 1).dropLast = v := by
    simp
  rw [hline]
  simp only [parseLine, htrim, List.isEmpty_cons, Bool.false_eq_true,
    if_false, List.head?_cons, Option.some.injEq, hchash, if_neg, hsfc,
    hktrim, hv0, hwrap, Bool.true_or, if_true, hv1, hvbr]

lemma mkLine_cons_form (k v : List Char) (hvdq : dquote ∉ v) :
    mkLine k v = k ++ ':' :: ' ' :: dquote :: (v ++ [dquote]) := by
  unfold mkLine yamlQuote
  rw [escapeDQ_eq_self v hvdq,
    show (": ".data : List Char) = [':', ' '] from rfl]
  simp

lemma mkLine_safe (k v : List Char) (hk : GoodKey k) (hv : GoodVal v) :
    SafeLine (mkLine k v) := by
  obtain ⟨hkne, hktrim, hkcolon, hknl, _⟩ := hk
  obtain ⟨hvnl, hvdq, _⟩ := hv
  rw [mkLine_cons_form k v hvdq]
  constructor
  · intro hmem
    rcases List.mem_append.mp hmem with h1 | h2
    · exact hknl h1
    · simp only [List.mem_cons, List.mem_append, List.mem_singleton] at h2
      rcases h2 with h | h | h | h | h
      · exact absurd h (by decide)
      · exact absurd h (by decide)
      · exact absurd h (by decide)
      · exact hvnl h
      · exact absurd h (by decide)
  · intro h3
    cases k with
    | nil => exact absurd rfl hkne
    | cons a k1 =>
      cases k1 with
      | nil => exfalso; simp [List.take] at h3
      | cons b k2 =>
        cases k2 with
        | nil => exfalso; simp [List.take] at h3
        | cons cc k3 =>
          refine ⟨':', ?_, by decide⟩
          simp [List.drop]

lemma insert_fresh (m : Header) (k : List Char) (v : Value)
    (h : ∀ q ∈ m, q.1 ≠ k) : insertKV m k v = m ++ [(k, v)] := by
  induction m with
  | nil => rfl
  | cons q m' ih =>
    rw [show insertKV (q :: m') k v =
        if q.1 = k then (q.1, v) :: m' else q :: insertKV m' k v from by
          obtain ⟨q1, q2⟩ := q; rfl,
      if_neg (h q (List.mem_cons_self _ _)),
      ih (fun r hr => h r (List.mem_cons_of_mem _ hr))]
    rfl

lemma foldl_parse_insert (h : List (List Char × List Char)) :
    ∀ m : Header,
      (∀ p ∈ h, ∀ q ∈ m, q.1 ≠ p.1) →
      ((h.map (·.1)).Nodup) →
      (∀ p ∈ h, GoodKey p.1 ∧ GoodVal p.2) →
      ((h.map (fun p => mkLine p.1 p.2)).foldl
        (fun m line =>
          match parseLine line with
          | some (k, v) => insertKV m k v
          | none => m) m) =
      m ++ h.map (fun p => (p.1, Value.str p.2)) := by
  induction h with
  | nil => intro m _ _ _; simp
  | cons p h' ih =>
    intro m hdisj hnd hgood
    have hp := hgood p (List.mem_cons_self _ _)
    simp only [List.map_cons, List.foldl_cons,
      parseLine_mkLine p.1 p.2 hp.1 hp.2]
    rw [insert_fresh m p.1 (Value.str p.2)
      (fun q hq => hdisj p (List.mem_cons_self _ _) q hq)]
    rw [ih (m ++ [(p.1, Value.str p.2)]) ?_ ?_ ?_]
    · simp
    · intro p' hp' q hq
      rcases List.mem_append.mp hq with hqm | hqs
      · exact hdisj p' (List.mem_cons_of_mem _ hp') q hqm
      · simp only [List.mem_singleton] at hqs
        subst hqs
      -- q = (p.1, str p.2): p.1 differs from every key of h'
        have hpk : p.1 ∉ h'.map (·.1) := by
          have := hnd
          rw [List.map_cons, List.nodup_cons] at this
          exact this.1
        intro he
        exact hpk (he ▸ List.mem_map_of_mem _ hp')
    · rw [List.map_cons, List.nodup_cons] at hnd
      exact hnd.2
    · exact fun p' hp' => hgood p' (List.mem_cons_of_mem _ hp')

lemma flatten_writeLines (h : List (List Char × List Char)) :
    ((h.map (fun p => (p.1, Value.str p.2))).map
      (fun p => writeLineQuoted p.1 p.2)).flatten =
      joinNl (h.map (fun p => mkLine p.1 p.2)) := by
  induction h with
  | nil => rfl
  | cons p h' ih =>
    simp only [List.map_cons, List.flatten_cons]
    rw [ih, show joinNl (mkLine p.1 p.2 :: h'.map (fun p => mkLine p.1 p.2)) =
        mkLine p.1 p.2 ++ '\n' :: joinNl (h'.map (fun p => mkLine p.1 p.2))
        from rfl]
    rw [show writeLineQuoted p.1 (Value.str p.2) =
        (mkLine p.1 p.2) ++ ['\n'] from by unfold writeLineQuoted mkLine; simp]
    simp

lemma findSome?_singleton {α : Type} (f : Nat → Option α) (a : Nat) :
    List.findSome? f [a] = f a := by
  cases hfa : f a <;> simp [List.findSome?_cons, hfa]

/-- C1 (amended): the quoted encoder and the decoder round-trip every
document whose header is nonempty with duplicate-free well-formed keys
(`GoodKey`) and plain string values without newline, embedded double quote
or bracket wrapping (`GoodVal`), and whose body does not begin with a line
of only whitespace: decoding the written text returns exactly the original
header (same order) and the original body. -/
theorem frontmatter_roundtrip (h : List (List Char × List Char))
    (body : List Char) (hne : h ≠ [])
    (hnd : (h.map (·.1)).Nodup)
    (hgood : ∀ p ∈ h, GoodKey p.1 ∧ GoodVal p.2)
    (hbody : ∀ c ∈ body.takeWhile isWS, c ≠ '\n') :
    parseFrontmatter
      (writeMarkdownFile (h.map (fun p => (p.1, Value.str p.2))) body) =
      (h.map (fun p => (p.1, Value.str p.2)), body) := by
  obtain ⟨p0, h', rfl⟩ : ∃ p0 h', h = p0 :: h' := by
    cases h with
    | nil => exact absurd rfl hne
    | cons p0 h' => exact ⟨p0, h', rfl⟩
  have hg0 := hgood p0 (List.mem_cons_self _ _)
  obtain ⟨c0, k0, hk0⟩ : ∃ c0 k0, p0.1 = c0 :: k0 := by
    cases hh : p0.1 with
    | nil => exact absurd hh hg0.1.1
    | cons c0 k0 => exact ⟨c0, k0, rfl⟩
  have hc0 : isWS c0 = false := by
    have := trimJS_head_ne_ws p0.1 hg0.1.1 hg0.1.2.1
    rw [hk0] at this
    simpa using this
  set ts := (p0 :: h').map (fun p => mkLine p.1 p.2) with hts
  set L := joinNl ts ++ '-' :: '-' :: '-' :: '\n' :: '\n' :: body with hL
  have henc : writeMarkdownFile
      ((p0 :: h').map (fun p => (p.1, Value.str p.2))) body =
      '-' :: '-' :: '-' :: '\n' :: L := by
    unfold writeMarkdownFile
    rw [flatten_writeLines (p0 :: h'), hL, hts,
      show ("---\n".data : List Char) = ['-', '-', '-', '\n'] from rfl,
      show ("---\n\n".data : List Char) = ['-', '-', '-', '\n', '\n']
        from rfl]
    simp
  obtain ⟨T', hT'⟩ : ∃ T', L = c0 :: T' := by
    rw [hL, hts, List.map_cons,
      show joinNl (mkLine p0.1 p0.2 ::
          h'.map (fun p => mkLine p.1 p.2)) =
        mkLine p0.1 p0.2 ++
          '\n' :: joinNl (h'.map (fun p => mkLine p.1 p.2)) from rfl,
      mkLine_cons_form p0.1 p0.2 hg0.2.2.1, hk0]
    exact ⟨_, rfl⟩
  have hsafe : ∀ t ∈ ts, SafeLine t := by
    intro t ht
    rw [hts] at ht
    obtain ⟨p, hp, rfl⟩ := List.mem_map.mp ht
    exact mkLine_safe p.1 p.2 (hgood p hp).1 (hgood p hp).2
  have hsc : splitClose L = some (interNl ts, body) := by
    rw [hL]
    exact splitClose_lines ts body (by rw [hts]; simp) hsafe hbody
  have htw : ('\n' :: L).takeWhile isWS = ['\n'] := by
    rw [List.takeWhile_cons, if_pos (by decide), hT',
      List.takeWhile_cons, if_neg (by simp [hc0])]
  have hcand : nlCands ('\n' :: L) = [0] := by
    unfold nlCands
    rw [htw]
    simp [List.range_succ]
  have hmatch : matchFM ('-' :: '-' :: '-' :: '\n' :: L) =
      some (interNl ts, body) := by
    unfold matchFM
    rw [if_pos (show List.take 3 ('-' :: '-' :: '-' :: '\n' :: L) =
          ['-', '-', '-'] from rfl),
      show ('-' :: '-' :: '-' :: '\n' :: L).drop 3 = '\n' :: L from rfl,
      hcand, findSome?_singleton,
      show ('\n' :: L).drop (0 + 1) = L from rfl, hsc]
  have hhdr : parseHeaderLines (interNl ts) =
      (p0 :: h').map (fun p => (p.1, Value.str p.2)) := by
    unfold parseHeaderLines
    rw [splitNl_interNl ts (by rw [hts]; simp)
      (fun t ht => (hsafe t ht).1)]
    rw [hts]
    have := foldl_parse_insert (p0 :: h') [] (by simp) hnd hgood
    simpa using this
  rw [henc]
  unfold parseFrontmatter
  rw [hmatch]
  simp only [hhdr]

instance (k : List Char) : Decidable (GoodKey k) := by
  unfold GoodKey; infer_instance

instance (v : List Char) : Decidable (GoodVal v) := by
  unfold GoodVal; infer_instance

/-- Witness for `frontmatter_roundtrip` on a concrete two-field header. -/
theorem frontmatter_roundtrip_witness :
    parseFrontmatter (writeMarkdownFile
      [("title".data, Value.str ("My Post".data)),
       ("draft".data, Value.str ("true".data))] ("Hello world.".data)) =
      ([("title".data, Value.str ("My Post".data)),
        ("draft".data, Value.str ("true".data))], "Hello world.".data) := by
  have := frontmatter_roundtrip
    [("title".data, "My Post".data), ("draft".data, "true".data)]
    ("Hello world.".data) (by decide) (by decide) (by decide) (by decide)
  simpa using this

/-- C1 counterexample: a header carrying a flat string list does NOT
round-trip.  `writeMarkdownFile` emits the list one item per line, but
`parseFrontmatter` only re-parses the inline `[...]` syntax: the `tags:`
line decodes to the empty string and the item lines are dropped, so the
decoded header differs from the original. -/
theorem frontmatter_roundtrip_fails_for_lists :
    parseFrontmatter (writeMarkdownFile
        [("tags".data, Value.arr [("a".data)])] ("x".data)) =
      ([("tags".data, Value.str [])], "x".data) ∧
      ([("tags".data, Value.str [])] : Header) ≠
        [("tags".data, Value.arr [("a".data)])] := by
  decide
